import Mathlib

set_option autoImplicit false

/-!
# Verification of the ingestion / schema-sync / atomic-replace / backup core

Shallow embedding of the repository's PostgreSQL ingestion subsystem:

* `helpers/pd_sql_conversion.py` — the type-coercion engine.  Raw scraped
  values are modelled as optional text (`RawCell := Option (List Char)`,
  `none` standing for a null/NaN cell); Python floats are modelled as exact
  rationals (`ℚ`), so decimal-string parsing is exact.
* `data_savers/postgres_saver.py` — schema synchronisation and the atomic
  table swap, modelled as statement sequences over an explicit database
  state with an explicit transaction buffer (base / tentative state /
  aborted flag) mirroring psycopg2 + PostgreSQL transaction semantics:
  a failed statement aborts the transaction, every later statement of the
  same transaction raises, `commit` on an aborted transaction rolls back.
* `data_backups/postgres_backup.py` — the versioned backup service.

External failures (connectivity, permissions) are injected through a list
of booleans consumed one per executed statement; intrinsic failures
(duplicate table on CREATE, missing table on RENAME, …) come from the
statement semantics themselves.
-/

namespace FondAnalysis

/-! ## Python strings and raw cells -/

/-- A Python `str`, embedded as its character list. -/
abbrev PyStr := List Char

/-- A raw dataset cell handed to the coercion engine: a null/NaN
(`none`) or a text value, the domain the scraper layer supplies. -/
abbrev RawCell := Option PyStr

/-- Python's default `str.strip()` whitespace set (ASCII part). -/
def isPySpace (c : Char) : Bool :=
  c = ' ' || c = '\t' || c = '\n' || c = '\r' || c = '\x0b' || c = '\x0c'

/-- `str.strip()`: drop whitespace from both ends. -/
def pyStrip (l : PyStr) : PyStr :=
  ((l.dropWhile isPySpace).reverse.dropWhile isPySpace).reverse

/-- Characters kept by the cleanup `re.sub(r"[^\d\-\.,eE%+]", "", s)` of
`_normalize_number_string`. -/
def keepNumChar (c : Char) : Bool :=
  c.isDigit || c = '-' || c = '.' || c = ',' || c = 'e' || c = 'E' || c = '%' || c = '+'

/-- Index of the last occurrence of `c` in `l` (`str.rfind`, as an
`Option` since both callers guard on membership). -/
def rfindIdx : PyStr → Char → Option Nat
  | [], _ => none
  | x :: xs, c =>
    match rfindIdx xs c with
    | some i => some (i + 1)
    | none => if x = c then some 0 else none

/-- The regex `^-?\d+,\d+$` of `_normalize_number_string`: an optional
minus sign, one or more digits, a comma, one or more digits. -/
def matchesDecimalComma (s : PyStr) : Bool :=
  let t := if s.head? = some '-' then s.tail else s
  let p := t.span Char.isDigit
  match p.2 with
  | ',' :: r2 => (!p.1.isEmpty) && (!r2.isEmpty) && r2.all Char.isDigit
  | _ => false

/-- `_normalize_number_string` from `helpers/pd_sql_conversion.py`:
strip whitespace, drop every character outside `[\d\-.,eE%+]`, peel a
trailing `%`, then apply the separator heuristics: with both `,` and `.`
present the rightmost one becomes the decimal dot; a single comma
matching `^-?\d+,\d+$` becomes the decimal dot; otherwise commas are
removed; finally leading `+` signs are stripped and a bare `"-"` is
doubled (faithful to the source's `("-" + s) if s == "-" else s`). -/
def _normalize_number_string (v : RawCell) : PyStr :=
  match v with
  | none => []
  | some s0 =>
    let s1 := pyStrip s0
    if s1 = [] then []
    else
      let s2 := s1.filter keepNumChar
      let percent := s2.getLast? = some '%'
      let s3 := if percent then s2.dropLast else s2
      let s4 :=
        if ',' ∈ s3 ∧ '.' ∈ s3 then
          if (rfindIdx s3 ',').getD 0 > (rfindIdx s3 '.').getD 0 then
            (s3.filter (fun c => c ≠ '.')).map (fun c => if c = ',' then '.' else c)
          else
            s3.filter (fun c => c ≠ ',')
        else if ',' ∈ s3 then
          if s3.count ',' = 1 ∧ matchesDecimalComma s3 then
            s3.map (fun c => if c = ',' then '.' else c)
          else
            s3.filter (fun c => c ≠ ',')
        else s3
      let s5 := s4.dropWhile (fun c => c = '+')
      if s5 = ['-'] then '-' :: s5 else s5

/-! ## Exact decimal parsing (Python `float(s)` on the cleaned grammar,
modelled over `ℚ`) -/

/-- Value of a digit string (most significant first), as a natural. -/
def digitsValNat (ds : PyStr) : ℕ :=
  ds.foldl (fun acc d => acc * 10 + (d.toNat - '0'.toNat)) 0

/-- Value of a digit string (most significant first). -/
def digitsVal (ds : PyStr) : ℚ :=
  (digitsValNat ds : ℚ)

/-- Parse the exponent part after `e`/`E`: optional sign then at least
one digit. -/
def parseExp (s : PyStr) : Option ℤ :=
  let p : Bool × PyStr := match s with
    | '-' :: r => (true, r)
    | '+' :: r => (false, r)
    | _ => (false, s)
  if p.2 ≠ [] ∧ p.2.all Char.isDigit then
    let n : ℤ := (digitsValNat p.2 : ℤ)
    some (if p.1 then -n else n)
  else none

/-- Parse an unsigned decimal literal `digits [. digits] [(e|E) exp]`
(at least one digit overall), exactly, into `ℚ`. -/
def parseUnsigned (s : PyStr) : Option ℚ :=
  let p := s.span Char.isDigit
  let ip := p.1
  match p.2 with
  | [] => if ip = [] then none else some (digitsVal ip)
  | '.' :: r2 =>
    let q := r2.span Char.isDigit
    let fp := q.1
    if ip = [] ∧ fp = [] then none
    else
      let m : ℚ := digitsVal ip + digitsVal fp / ((10 : ℚ) ^ fp.length)
      match q.2 with
      | [] => some m
      | 'e' :: r3 => (parseExp r3).map (fun k => m * (10 : ℚ) ^ k)
      | 'E' :: r3 => (parseExp r3).map (fun k => m * (10 : ℚ) ^ k)
      | _ => none
  | 'e' :: r3 =>
    if ip = [] then none
    else (parseExp r3).map (fun k => digitsVal ip * (10 : ℚ) ^ k)
  | 'E' :: r3 =>
    if ip = [] then none
    else (parseExp r3).map (fun k => digitsVal ip * (10 : ℚ) ^ k)
  | _ => none

/-- Parse a signed decimal literal, exactly, into `ℚ`.  This models both
`float(s)` and the `Decimal(s)` fallback of `_parse_numeric_value` on
the character set that survives normalization. -/
def parseRat (s : PyStr) : Option ℚ :=
  match s with
  | '-' :: rest => (parseUnsigned rest).map Neg.neg
  | '+' :: rest => parseUnsigned rest
  | _ => parseUnsigned s

/-- `_parse_numeric_value`: null maps to NaN (`none`); otherwise
normalize and parse (the `float` parse and the `Decimal` fallback
coincide in the exact model). -/
def _parse_numeric_value (v : RawCell) : Option ℚ :=
  match v with
  | none => none
  | some _ =>
    let s := _normalize_number_string v
    if s = [] then none else parseRat s

/-- `np.round` on a scalar: round half to even. -/
def roundHalfEven (q : ℚ) : ℤ :=
  let f := ⌊q⌋
  let r := q - (f : ℚ)
  if r < 1/2 then f
  else if r > 1/2 then f + 1
  else if f % 2 = 0 then f else f + 1

/-- `_parse_integer_series`: parse every value; a *failure* is recorded
for the non-null parsed values whose distance to the nearest integer
exceeds `1e-9`; the output emits the integer only where the parsed value
is exactly integral (`numeric == np.round(numeric)`), and null
elsewhere. -/
def _parse_integer_series (s : List RawCell) : List (Option ℤ) × List ℕ :=
  let numeric := s.map _parse_numeric_value
  let fails := (List.range s.length).filter (fun i =>
    match numeric.getD i none with
    | some q => decide (|q - (roundHalfEven q : ℚ)| > 1/1000000000)
    | none => false)
  let out := numeric.map (fun nq =>
    match nq with
    | some q => if q = (roundHalfEven q : ℚ) then some (roundHalfEven q) else none
    | none => none)
  (out, fails)

/-- `_parse_numeric_series`: parsed values as floats; a failure for
every non-null input that parsed to NaN. -/
def _parse_numeric_series (s : List RawCell) : List (Option ℚ) × List ℕ :=
  let numeric := s.map _parse_numeric_value
  let fails := (List.range s.length).filter (fun i =>
    (numeric.getD i none).isNone && (s.getD i none).isSome)
  (numeric, fails)

/-- The fixed true-set of `_parse_boolean_series`. -/
def boolTrueSet : List PyStr :=
  ["true".toList, "t".toList, "yes".toList, "y".toList, "1".toList, "on".toList]

/-- The fixed false-set of `_parse_boolean_series`. -/
def boolFalseSet : List PyStr :=
  ["false".toList, "f".toList, "no".toList, "n".toList, "0".toList, "off".toList]

/-- One cell of `_parse_boolean_series`: case-insensitive membership in
the fixed true/false sets after stripping. -/
def parse_boolean_value (v : RawCell) : Option Bool :=
  match v with
  | none => none
  | some s =>
    let st := (pyStrip s).map Char.toLower
    if boolTrueSet.contains st then some true
    else if boolFalseSet.contains st then some false
    else none

/-- `_parse_boolean_series`: nulls pass through; anything outside the
two fixed sets records a failure and emits null. -/
def _parse_boolean_series (s : List RawCell) : List (Option Bool) × List ℕ :=
  let out := s.map parse_boolean_value
  let fails := (List.range s.length).filter (fun i =>
    (s.getD i none).isSome && (out.getD i none).isNone)
  (out, fails)


/-! ## Database model: cells, tables, schema-namespace state -/

/-- A stored SQL cell.  `null` is the SQL NULL / pandas NA. -/
inductive Cell where
  | null
  | text (s : PyStr)
  | intg (n : ℤ)
  | num (q : ℚ)
  | boolean (b : Bool)
  | tstamp (t : ℤ)
  | blob (b : PyStr)
  deriving DecidableEq, Repr

/-- PostgreSQL storage types appearing in the saver and backup code. -/
inductive PgType where
  | bigint
  | doublePrecision
  | boolean
  | timestamp
  | timestamptz
  | integer
  | text
  deriving DecidableEq, Repr

/-- The pandas dtypes distinguished by `_map_pandas_to_postgres_type`. -/
inductive Dtype where
  | int64
  | int32
  | float64
  | float32
  | bool
  | datetime64ns
  | object
  | string
  | other
  deriving DecidableEq, Repr

/-- `_map_pandas_to_postgres_type` from `postgres_saver.py`. -/
def mapPandasToPostgresType (d : Dtype) : PgType :=
  match d with
  | .int64 => .bigint
  | .int32 => .bigint
  | .float64 => .doublePrecision
  | .float32 => .doublePrecision
  | .bool => .boolean
  | .datetime64ns => .timestamp
  | .object => .text
  | .string => .text
  | .other => .text

/-- A table in the schema-namespace: ordered column descriptors and
rows; each row is stored full-width, aligned with `cols`. -/
structure Table where
  cols : List (String × PgType)
  rows : List (List Cell)
  deriving DecidableEq, Repr

/-- The schema-namespace: an association list of named tables, in
creation order (the catalog). -/
abbrev DBState := List (String × Table)

/-- A pandas DataFrame handed to `save_data`: named, dtyped columns and
row tuples (`data.values`). -/
structure DataFrame where
  cols : List (String × Dtype)
  rows : List (List Cell)
  deriving DecidableEq, Repr

/-- `data.empty`: true when either axis is empty. -/
def DataFrame.isEmptyDf (df : DataFrame) : Bool :=
  df.rows.isEmpty || df.cols.isEmpty

/-- A well-formed dataset per spec §3: unique column names, every row
as long as the column list, and no rows without columns. -/
def DataFrame.wf (df : DataFrame) : Prop :=
  (df.cols.map Prod.fst).Nodup ∧
  (∀ r ∈ df.rows, r.length = df.cols.length) ∧
  (df.cols = [] → df.rows = [])

/-- Catalog lookup: the first (hence, since SQL names are unique, the)
table of that name. -/
def lookupTable : DBState → String → Option Table
  | [], _ => none
  | p :: rest, n => if p.1 = n then some p.2 else lookupTable rest n

def hasTable (st : DBState) (n : String) : Bool :=
  (lookupTable st n).isSome

/-- Remove every entry of that name from the catalog. -/
def removeTable : DBState → String → DBState
  | [], _ => []
  | p :: rest, n => if p.1 = n then removeTable rest n else p :: removeTable rest n

/-- Replace the contents of every entry of that name. -/
def updateTable : DBState → String → Table → DBState
  | [], _, _ => []
  | p :: rest, n, t => if p.1 = n then (p.1, t) :: updateTable rest n t else p :: updateTable rest n t

/-- `CREATE TABLE` — fails if the name already exists in the catalog. -/
def createTable (st : DBState) (n : String) (t : Table) : Option DBState :=
  if hasTable st n then none else some (st ++ [(n, t)])

/-- `ALTER TABLE old RENAME TO new` — fails if `old` is absent or `new`
already exists. -/
def renameTable (st : DBState) (old new : String) : Option DBState :=
  match lookupTable st old with
  | none => none
  | some t => if hasTable st new then none else some (removeTable st old ++ [(new, t)])

/-- `DROP TABLE` — fails if the table is absent. -/
def dropTable (st : DBState) (n : String) : Option DBState :=
  if hasTable st n then some (removeTable st n) else none

/-- `ALTER TABLE n ADD COLUMN c ty`: appends a nullable column, padding
existing rows with NULL; fails if the table is absent or the column
already declared. -/
def addColumn (st : DBState) (n : String) (c : String) (ty : PgType) : Option DBState :=
  match lookupTable st n with
  | none => none
  | some t =>
    if c ∈ t.cols.map Prod.fst then none
    else some (updateTable st n ⟨t.cols ++ [(c, ty)], t.rows.map (fun r => r ++ [Cell.null])⟩)

/-- First index of a name in a name list. -/
def idxOfName : List String → String → Option ℕ
  | [], _ => none
  | n :: ns, m => if n = m then some 0 else (idxOfName ns m).map (· + 1)

/-- Align one DataFrame row (ordered per `dfNames`) to a table's column
list: named columns take the row's value, others NULL — the effect of
`INSERT INTO t (dfNames) VALUES (row)`. -/
def alignRow (tcols : List (String × PgType)) (dfNames : List String) (r : List Cell) : List Cell :=
  tcols.map (fun p =>
    match idxOfName dfNames p.1 with
    | some i => r.getD i Cell.null
    | none => Cell.null)

/-- The bulk `INSERT INTO name (cols) VALUES …` of `_insert_dataframe`:
fails if the table is absent, a DataFrame column is not declared in the
table, or a record's width differs from the column list. -/
def insertDf (st : DBState) (n : String) (df : DataFrame) : Option DBState :=
  match lookupTable st n with
  | none => none
  | some t =>
    let dfNames := df.cols.map Prod.fst
    if (∀ c ∈ dfNames, c ∈ t.cols.map Prod.fst) ∧ (∀ r ∈ df.rows, r.length = df.cols.length) then
      some (updateTable st n ⟨t.cols, t.rows ++ df.rows.map (alignRow t.cols dfNames)⟩)
    else none

/-- `CREATE TABLE temp (LIKE target INCLUDING ALL)`: a fresh empty
structural clone. -/
def createTableLike (st : DBState) (temp target : String) : Option DBState :=
  match lookupTable st target with
  | none => none
  | some t => createTable st temp ⟨t.cols, []⟩

/-- The rename sequence of `_execute_atomic_swap`:
`ALTER TABLE dest RENAME TO old; ALTER TABLE temp RENAME TO dest;
DROP TABLE old` — one composite statement. -/
def swapOp (st : DBState) (dest temp old : String) : Option DBState :=
  (renameTable st dest old).bind fun st1 =>
    (renameTable st1 temp dest).bind fun st2 =>
      dropTable st2 old

/-! ## Transactions (psycopg2 over PostgreSQL)

A transaction holds the committed base state, the tentative state its
statements act on, and an aborted flag: once a statement fails, every
further statement of the transaction raises
(`InFailedSqlTransaction`), and `commit` degrades to rollback.
External faults (connectivity, permissions) are injected by a boolean
list consumed one entry per statement actually sent to the store. -/

structure Tx where
  base : DBState
  db : DBState
  aborted : Bool
  faults : List Bool
  deriving DecidableEq, Repr

def popFault : List Bool → Bool × List Bool
  | [] => (false, [])
  | b :: r => (b, r)

/-- Execute one DDL/DML statement inside the transaction.  The returned
flag is `true` when the call raised. -/
def execStmt (tx : Tx) (op : DBState → Option DBState) : Tx × Bool :=
  if tx.aborted then (tx, true)
  else
    let pf := popFault tx.faults
    if pf.1 then ({ tx with aborted := true, faults := pf.2 }, true)
    else
      match op tx.db with
      | some db' => ({ tx with db := db', faults := pf.2 }, false)
      | none => ({ tx with aborted := true, faults := pf.2 }, true)

/-- Execute one catalog query; `none` means the call raised. -/
def execQuery {α : Type} (tx : Tx) (q : DBState → α) : Tx × Option α :=
  if tx.aborted then (tx, none)
  else
    let pf := popFault tx.faults
    if pf.1 then ({ tx with aborted := true, faults := pf.2 }, none)
    else ({ tx with faults := pf.2 }, some (q tx.db))

/-- `COMMIT`: publishes the tentative state, except that committing an
aborted transaction rolls back. -/
def txCommit (tx : Tx) : DBState :=
  if tx.aborted then tx.base else tx.db

/-- `_table_exists`: runs the `information_schema` EXISTS query and
catches its own errors, reporting `False` on failure. -/
def tableExistsTx (tx : Tx) (n : String) : Tx × Bool :=
  match execQuery tx (fun db => hasTable db n) with
  | (tx', some b) => (tx', b)
  | (tx', none) => (tx', false)

/-! ## `PostgresDataSaver` -/

/-- The table built by `_create_table_from_dataframe` /
`_generate_table_columns_sql`: one nullable column per DataFrame
column, dtype-mapped. -/
def tableFromDf (df : DataFrame) : Table :=
  ⟨df.cols.map (fun p => (p.1, mapPandasToPostgresType p.2)), []⟩

/-- The `ALTER TABLE … ADD COLUMN` loop of `_synchronize_table_schema`;
the first raise breaks the loop (the exception is caught by the
enclosing `try`). -/
def addColumnsLoop (dest : String) : Tx → List (String × Dtype) → Tx
  | tx, [] => tx
  | tx, c :: cs =>
    match execStmt tx (fun db => addColumn db dest c.1 (mapPandasToPostgresType c.2)) with
    | (tx', false) => addColumnsLoop dest tx' cs
    | (tx', true) => tx'

/-- `_synchronize_table_schema`: reflect the existing column names, then
add each DataFrame column that is absent.  All errors are caught and
only logged (`logger.warning`) — nothing is re-raised, though a failed
statement still leaves the shared transaction aborted. -/
def _synchronize_table_schema (tx : Tx) (dest : String) (df : DataFrame) : Tx :=
  match execQuery tx (fun db => ((lookupTable db dest).map (fun t => t.cols.map Prod.fst)).getD []) with
  | (tx', none) => tx'
  | (tx', some existing) =>
    addColumnsLoop dest tx' (df.cols.filter (fun p => !(existing.contains p.1)))

/-- `_create_or_update_table`: create the table from the DataFrame when
absent (errors re-raised), else synchronize its schema (errors
swallowed). -/
def _create_or_update_table (tx : Tx) (dest : String) (df : DataFrame) : Tx × Bool :=
  match tableExistsTx tx dest with
  | (tx1, true) => (_synchronize_table_schema tx1 dest df, false)
  | (tx1, false) => execStmt tx1 (fun db => createTable db dest (tableFromDf df))

/-- `_insert_dataframe`: skipped entirely for an empty DataFrame. -/
def insertDataFrame (tx : Tx) (n : String) (df : DataFrame) : Tx × Bool :=
  if df.isEmptyDf then (tx, false)
  else execStmt tx (fun db => insertDf db n df)

/-- `_execute_atomic_swap`: create the shadow table, bulk-insert, then
the composite rename/drop statement. -/
def _execute_atomic_swap (tx : Tx) (dest temp : String) (df : DataFrame) : Tx × Bool :=
  match execStmt tx (fun db => createTableLike db temp dest) with
  | (tx1, true) => (tx1, true)
  | (tx1, false) =>
    match insertDataFrame tx1 temp df with
    | (tx2, true) => (tx2, true)
    | (tx2, false) => execStmt tx2 (fun db => swapOp db dest temp ("old_" ++ temp))

/-- `save_data`: one transaction covering schema synchronisation and the
atomic swap; any exception rolls back and reports failure, otherwise the
transaction is committed and success reported.  `temp` stands for the
timestamp-generated shadow-table name. -/
def save_data (faults : List Bool) (df : DataFrame) (dest temp : String) (st : DBState) : Bool × DBState :=
  match _create_or_update_table ⟨st, st, false, faults⟩ dest df with
  | (_, true) => (false, st)
  | (tx1, false) =>
    match _execute_atomic_swap tx1 dest temp df with
    | (_, true) => (false, st)
    | (tx2, false) => (true, txCommit tx2)

/-- `read_data`: `None` when the table is absent, else `SELECT *`. -/
def read_data (st : DBState) (source : String) : Option (List (List Cell)) :=
  (lookupTable st source).map Table.rows


/-! ## `PostgresBackupService` -/

/-- One invocation's clock reading: the UTC instant together with the
calendar year and ISO week the source derives from it
(`datetime.now(timezone.utc)`, `.year`, `.isocalendar()[1]`). -/
structure ClockReading where
  instant : ℤ
  year : ℤ
  week : ℤ
  deriving DecidableEq, Repr

/-- The three backup metadata columns appended by
`_create_backup_table_if_not_exists`. -/
def metaCols : List (String × PgType) :=
  [("backup_timestamp", .timestamptz), ("backup_year", .integer), ("backup_week", .integer)]

/-- Stamp one source row with the invocation's timestamp, year and ISO
week, as the backup INSERT's `SELECT *, %s, %s, %s` does. -/
def stampRow (c : ClockReading) (r : List Cell) : List Cell :=
  r ++ [Cell.tstamp c.instant, Cell.intg c.year, Cell.intg c.week]

/-- The backup-table name for a source table. -/
def backupName (source : String) : String := source ++ "_backup"

/-- `_create_backup_table_if_not_exists`: no-op if the backup table
exists; otherwise `CREATE TABLE … (LIKE source INCLUDING ALL, …meta)`
followed by the two `CREATE INDEX` statements (index creation has no
catalog effect in this model but is still a failable statement).
Errors are re-raised. -/
def _create_backup_table_if_not_exists (tx : Tx) (source : String) : Tx × Bool :=
  match tableExistsTx tx (backupName source) with
  | (txe, true) => (txe, false)
  | (txe, false) =>
    match execStmt txe (fun db =>
        match lookupTable db source with
        | none => none
        | some t => createTable db (backupName source) ⟨t.cols ++ metaCols, []⟩) with
    | (tx2, true) => (tx2, true)
    | (tx2, false) =>
      match execStmt tx2 (fun db => some db) with
      | (tx3, true) => (tx3, true)
      | (tx3, false) => execStmt tx3 (fun db => some db)

/-- `_execute_backup_operation`: one `INSERT INTO backup SELECT *, ts,
year, week FROM source` statement; it fails unless both tables exist and
the backup table is exactly three columns wider than the source. -/
def _execute_backup_operation (tx : Tx) (c : ClockReading) (source : String) : Tx × Bool :=
  execStmt tx (fun db =>
    match lookupTable db source, lookupTable db (backupName source) with
    | some s, some b =>
      if b.cols.length = s.cols.length + 3 then
        some (updateTable db (backupName source) ⟨b.cols, b.rows ++ s.rows.map (stampRow c)⟩)
      else none
    | _, _ => none)

/-- The `NotFound` message of `backup_data`. -/
def notFoundMsg (source : String) : String :=
  "Source table " ++ source ++ " does not exist"

/-- The modelled `str(e)` of a raised statement. -/
def stmtFailMsg : String := "statement failed"

/-- `backup_data`: fail fast with a NotFound message when the source
table is absent; otherwise ensure the backup table, run the append-only
insert, and commit; any exception rolls back and reports the error. -/
def backup_data (faults : List Bool) (c : ClockReading) (source : String) (st : DBState) :
    (Bool × Option String) × DBState :=
  match tableExistsTx ⟨st, st, false, faults⟩ source with
  | (_, false) => ((false, some (notFoundMsg source)), st)
  | (txe, true) =>
    match _create_backup_table_if_not_exists txe source with
    | (_, true) => ((false, some stmtFailMsg), st)
    | (tx2, false) =>
      match _execute_backup_operation tx2 c source with
      | (_, true) => ((false, some stmtFailMsg), st)
      | (tx3, false) => ((true, none), txCommit tx3)

/-- The SQL filter `table_name NOT LIKE '%_backup'` (with `_` the LIKE
single-character wildcard): excluded are the names of length ≥ 7 ending
in the six literal characters `backup`. -/
def likeEndsBackup (n : String) : Bool :=
  let l := n.toList
  decide (7 ≤ l.length) && decide (l.drop (l.length - 6) = "backup".toList)

/-- Lexicographic comparison of names by character code (the
deterministic total order behind `ORDER BY table_name`). -/
def charListLe : List Char → List Char → Bool
  | [], _ => true
  | _ :: _, [] => false
  | a :: as, b :: bs =>
    if a.val.toNat < b.val.toNat then true
    else if b.val.toNat < a.val.toNat then false
    else charListLe as bs

/-- Name order used by the enumeration query. -/
def strLe (a b : String) : Bool := charListLe a.data b.data

/-- Insertion into a name-sorted list (`ORDER BY table_name`). -/
def insertSorted (x : String) : List String → List String
  | [] => [x]
  | y :: ys => if strLe x y then x :: y :: ys else y :: insertSorted x ys

/-- Sort names ascending (`ORDER BY table_name`). -/
def sortNames (l : List String) : List String :=
  l.foldr insertSorted []

/-- The per-table loop of `backup_all`: each table's ensure+insert runs
under the shared cursor; an exception is caught, recorded as a
`(table, error)` pair, and the loop continues with the next table. -/
def backupAllLoop (c : ClockReading) : Tx → List String → Tx × List (String × String)
  | tx, [] => (tx, [])
  | tx, t :: ts =>
    match _create_backup_table_if_not_exists tx t with
    | (tx1, true) =>
      match backupAllLoop c tx1 ts with
      | (txr, errs) => (txr, (t, stmtFailMsg) :: errs)
    | (tx1, false) =>
      match _execute_backup_operation tx1 c t with
      | (tx2, true) =>
        match backupAllLoop c tx2 ts with
        | (txr, errs) => (txr, (t, stmtFailMsg) :: errs)
      | (tx2, false) => backupAllLoop c tx2 ts

/-- Python %-interpolation as the psycopg2 client performs it on any
query that is given bind parameters, before the statement is sent to
the server: `%s` consumes a parameter, `%%` is a literal percent, and a
`%` followed by any other character raises
`ValueError: unsupported format character`. -/
def pyFormatOk : List Char → Bool
  | [] => true
  | '%' :: [] => false
  | '%' :: c :: rest => if c = 's' ∨ c = '%' then pyFormatOk rest else false
  | _ :: rest => pyFormatOk rest

/-- The text of `backup_all`'s table-enumeration query.  Unlike the
sibling query of `_ensure_backup_tables_exist` (whose pattern is written
`'%%_backup'`), the `%` of its LIKE pattern is not doubled. -/
def backupAllEnumQuery : List Char :=
  ("SELECT table_name FROM information_schema.tables WHERE table_schema = %s AND table_type = 'BASE TABLE' AND table_name NOT LIKE '%_backup' ORDER BY table_name;").toList

/-- The message of the `ValueError` the client raises on the unescaped
percent sign. -/
def valueErrorMsg : String := "unsupported format character '_'"

/-- `backup_all`: enumerate the base tables not matching
`'%_backup'`, sorted by name; attempt each inside ONE shared
transaction; return the collected failures after a single final
commit.  But the enumeration query is executed with a bind parameter
while its text still contains the unescaped `%` of the LIKE pattern, so
the client-side interpolation raises on every call; the handler catches
the error, rolls back and reports a single `("all", …)` failure — the
loop below the query is never reached. -/
def backup_all (faults : List Bool) (c : ClockReading) (st : DBState) :
    List (String × String) × DBState :=
  if pyFormatOk backupAllEnumQuery then
    match execQuery ⟨st, st, false, faults⟩
        (fun db => sortNames ((db.map Prod.fst).filter (fun n => !likeEndsBackup n))) with
    | (_, none) => ([("all", stmtFailMsg)], st)
    | (tx1, some tables) =>
      match backupAllLoop c tx1 tables with
      | (txr, errs) => (errs, txCommit txr)
  else ([("all", valueErrorMsg)], st)

/-- Externally refresh a table's contents (what the saver does between
two backup invocations), keeping its schema. -/
def setTableRows (st : DBState) (n : String) (rows : List (List Cell)) : DBState :=
  st.map (fun p => if p.1 == n then (p.1, ⟨p.2.cols, rows⟩) else p)

/-- A sequence of `backup_one(source)` invocations: before the i-th
call the source table is externally refreshed to the i-th snapshot
contents, then `backup_data` runs fault-free.  Returns the final state
and whether every call reported success. -/
def runBackups (source : String) : DBState → List (ClockReading × List (List Cell)) → DBState × Bool
  | st, [] => (st, true)
  | st, (c, snap) :: rest =>
    match backup_data [] c source (setTableRows st source snap) with
    | (res, st2) =>
      match runBackups source st2 rest with
      | (stN, ok) => (stN, res.1 && ok)


/-! ## `auto_cast_to_sql`

The coercion pass over a whole DataFrame against the reflected table
schema.  The reflected schema is `none` when `_get_postgresql_table_schema`
raised, `some []` when the table is absent or has no columns.  Each
schema column carries its `data_type` and `udt_name` strings.  The two
pandas library calls the source delegates to (`pd.to_datetime` and
`json.loads`) and the `.dt.date` truncation are taken as function
parameters of the embedding.  Input cells are raw text-or-null; the
output cell type is `Cell`, with untouched columns carried over by the
identity embedding `embedCell`. -/

/-- Identity embedding of a raw input cell into the output cell type:
untouched columns pass through unchanged. -/
def embedCell : RawCell → Cell
  | none => .null
  | some s => .text s

/-- A column carried over unchanged. -/
def embedCol (col : List RawCell) : List Cell :=
  col.map embedCell

/-- Reflected column info: `(data_type, udt_name)`. -/
abbrev ColInfo := String × String

/-- The `data_type` strings of the integer branch. -/
def integerTypeNames : List String :=
  ["integer", "bigint", "smallint", "serial", "bigserial"]

/-- The `data_type` strings of the numeric branch. -/
def numericTypeNames : List String :=
  ["numeric", "decimal", "real", "double precision"]

/-- The `data_type` strings of the date/time branch. -/
def datetimeTypeNames : List String :=
  ["timestamp without time zone", "timestamp with time zone", "date",
   "time without time zone", "time with time zone"]

/-- The `data_type` strings of the text branch. -/
def textTypeNames : List String :=
  ["text", "character varying", "character", "varchar", "char"]

/-- The `data_type` strings of the JSON branch. -/
def jsonTypeNames : List String :=
  ["json", "jsonb"]

/-- Convert one column against its reflected `(data_type, udt_name)`,
following the branch order of `auto_cast_to_sql`.  `toDatetime` stands
for `pd.to_datetime(·, errors="coerce")` on one cell, `dateOf` for the
`.dt.date` truncation, `parseJson` for `json.loads` (returning `none`
on parse failure, whereupon the raw text is kept). -/
def convertColumn (toDatetime : RawCell → Option ℤ) (dateOf : ℤ → ℤ)
    (parseJson : PyStr → Option PyStr) (info : ColInfo) (col : List RawCell) : List Cell :=
  let dt := info.1
  let udt := info.2
  if integerTypeNames.contains dt then
    (_parse_integer_series col).1.map (fun o => (o.map Cell.intg).getD Cell.null)
  else if numericTypeNames.contains dt then
    (_parse_numeric_series col).1.map (fun o => (o.map Cell.num).getD Cell.null)
  else if datetimeTypeNames.contains dt then
    let parsed := col.map toDatetime
    if dt = "date" then
      parsed.map (fun o => ((o.map dateOf).map Cell.tstamp).getD Cell.null)
    else
      parsed.map (fun o => (o.map Cell.tstamp).getD Cell.null)
  else if dt = "boolean" then
    (_parse_boolean_series col).1.map (fun o => (o.map Cell.boolean).getD Cell.null)
  else if textTypeNames.contains dt then
    embedCol col
  else if jsonTypeNames.contains dt then
    col.map (fun c =>
      match c with
      | none => Cell.null
      | some s => Cell.text ((parseJson s).getD s))
  else if dt = "bytea" || udt = "bytea" then
    col.map (fun c =>
      match c with
      | none => Cell.null
      | some s => Cell.blob s)
  else
    embedCol col

/-- First reflected info for a column name. -/
def lookupColInfo (schema : List (String × ColInfo)) (n : String) : Option ColInfo :=
  (schema.find? (fun q => q.1 == n)).map Prod.snd

/-- `auto_cast_to_sql` from `helpers/pd_sql_conversion.py`: return the
DataFrame unchanged when the schema reflection raised (`none`) or found
no columns (`some []`); otherwise convert exactly the DataFrame columns
declared in the schema and leave every other column untouched. -/
def auto_cast_to_sql (toDatetime : RawCell → Option ℤ) (dateOf : ℤ → ℤ)
    (parseJson : PyStr → Option PyStr) (tableSchema : Option (List (String × ColInfo)))
    (df : List (String × List RawCell)) : List (String × List Cell) :=
  match tableSchema with
  | none => df.map (fun p => (p.1, embedCol p.2))
  | some [] => df.map (fun p => (p.1, embedCol p.2))
  | some schema =>
    df.map (fun p =>
      match lookupColInfo schema p.1 with
      | none => (p.1, embedCol p.2)
      | some info => (p.1, convertColumn toDatetime dateOf parseJson info p.2))


/-! ## Concrete inputs and derived views used in the theorems -/

/-- The state of the C6 scenario: destination `t` with one `TEXT`
column `a` and one row. -/
def c6State : DBState := [("t", ⟨[("a", .text)], [[Cell.text ['x']]]⟩)]

/-- The C6 dataset: column `a` plus a new column `b`. -/
def c6Df : DataFrame := ⟨[("a", .object), ("b", .int64)], [[Cell.text ['y'], Cell.intg 5]]⟩

/-- The characters of `"0.0000000001"`. -/
def tinyDecimal : PyStr := ['0', '.', '0', '0', '0', '0', '0', '0', '0', '0', '0', '1']

/-- The characters of `"1.234,56"`. -/
def euroPrice : PyStr := ['1', '.', '2', '3', '4', ',', '5', '6']

/-- Read one row back in the DataFrame's column order: the inverse of
`alignRow` on the columns the DataFrame supplied. -/
def projectRow (tcols : List (String × PgType)) (names : List String) (row : List Cell) :
    List Cell :=
  names.map (fun n =>
    match idxOfName (tcols.map Prod.fst) n with
    | some i => row.getD i Cell.null
    | none => Cell.null)

/-- The rows currently in `source`'s backup table (empty when the
backup table does not exist yet). -/
def bRows (st : DBState) (source : String) : List (List Cell) :=
  ((lookupTable st (backupName source)).map Table.rows).getD []

/-- The rows currently in `source` itself. -/
def srcRows (st : DBState) (source : String) : List (List Cell) :=
  ((lookupTable st source).map Table.rows).getD []


/-! ## Helper lemmas: transactions and the catalog -/

theorem execStmt_false (tx tx' : Tx) (op : DBState → Option DBState)
    (h : execStmt tx op = (tx', false)) :
    tx.aborted = false ∧ tx'.aborted = false ∧ tx'.base = tx.base ∧
      op tx.db = some tx'.db ∧ tx'.faults = (popFault tx.faults).2 := by
  by_cases hab : tx.aborted = true
  · simp [execStmt, hab] at h
  · rw [Bool.not_eq_true] at hab
    cases hf : (popFault tx.faults).1 with
    | true => simp [execStmt, hab, hf] at h
    | false =>
      cases hop : op tx.db with
      | some db' =>
        have he : execStmt tx op =
            ({ base := tx.base, db := db', aborted := false,
               faults := (popFault tx.faults).2 }, false) := by
          simp [execStmt, hab, hf, hop]
        rw [he] at h
        injection h with h1 h2
        subst h1
        exact ⟨hab, rfl, rfl, rfl, rfl⟩
      | none => simp [execStmt, hab, hf, hop] at h

theorem execStmt_true (tx tx' : Tx) (op : DBState → Option DBState)
    (h : execStmt tx op = (tx', true)) :
    tx'.aborted = true ∧ tx'.base = tx.base ∧ tx'.db = tx.db := by
  by_cases hab : tx.aborted = true
  · have he : execStmt tx op = (tx, true) := by simp [execStmt, hab]
    rw [he] at h
    injection h with h1 h2
    subst h1
    exact ⟨hab, rfl, rfl⟩
  · rw [Bool.not_eq_true] at hab
    cases hf : (popFault tx.faults).1 with
    | true =>
      have he : execStmt tx op =
          ({ base := tx.base, db := tx.db, aborted := true,
             faults := (popFault tx.faults).2 }, true) := by
        simp [execStmt, hab, hf]
      rw [he] at h
      injection h with h1 h2
      subst h1
      exact ⟨rfl, rfl, rfl⟩
    | false =>
      cases hop : op tx.db with
      | some db' => simp [execStmt, hab, hf, hop] at h
      | none =>
        have he : execStmt tx op =
            ({ base := tx.base, db := tx.db, aborted := true,
               faults := (popFault tx.faults).2 }, true) := by
          simp [execStmt, hab, hf, hop]
        rw [he] at h
        injection h with h1 h2
        subst h1
        exact ⟨rfl, rfl, rfl⟩

theorem execQuery_some {α : Type} (tx tx' : Tx) (q : DBState → α) (a : α)
    (h : execQuery tx q = (tx', some a)) :
    tx.aborted = false ∧ tx'.aborted = false ∧ tx'.base = tx.base ∧
      tx'.db = tx.db ∧ a = q tx.db := by
  by_cases hab : tx.aborted = true
  · simp [execQuery, hab] at h
  · rw [Bool.not_eq_true] at hab
    cases hf : (popFault tx.faults).1 with
    | true => simp [execQuery, hab, hf] at h
    | false =>
      have he : execQuery tx q =
          ({ base := tx.base, db := tx.db, aborted := false,
             faults := (popFault tx.faults).2 }, some (q tx.db)) := by
        simp [execQuery, hab, hf]
      rw [he] at h
      injection h with h1 h2
      subst h1
      injection h2 with h3
      exact ⟨hab, rfl, rfl, rfl, h3.symm⟩

theorem execQuery_none {α : Type} (tx tx' : Tx) (q : DBState → α)
    (h : execQuery tx q = (tx', none)) :
    tx'.aborted = true ∧ tx'.base = tx.base ∧ tx'.db = tx.db := by
  by_cases hab : tx.aborted = true
  · have he : execQuery tx q = (tx, (none : Option α)) := by simp [execQuery, hab]
    rw [he] at h
    injection h with h1 h2
    subst h1
    exact ⟨hab, rfl, rfl⟩
  · rw [Bool.not_eq_true] at hab
    cases hf : (popFault tx.faults).1 with
    | true =>
      have he : execQuery tx q =
          ({ base := tx.base, db := tx.db, aborted := true,
             faults := (popFault tx.faults).2 }, (none : Option α)) := by
        simp [execQuery, hab, hf]
      rw [he] at h
      injection h with h1 h2
      subst h1
      exact ⟨rfl, rfl, rfl⟩
    | false => simp [execQuery, hab, hf] at h

theorem tableExistsTx_spec (tx : Tx) (n : String) :
    (tableExistsTx tx n).1.base = tx.base ∧ (tableExistsTx tx n).1.db = tx.db ∧
      ((tableExistsTx tx n).2 = true →
        tx.aborted = false ∧ (tableExistsTx tx n).1.aborted = false ∧
          hasTable tx.db n = true) := by
  rcases hq : execQuery tx (fun db => hasTable db n) with ⟨tx', r⟩
  cases r with
  | some b =>
    have ht : tableExistsTx tx n = (tx', b) := by
      unfold tableExistsTx
      rw [hq]
    obtain ⟨h1, h2, h3, h4, h5⟩ := execQuery_some tx tx' _ b hq
    rw [ht]
    exact ⟨h3, h4, fun hb => ⟨h1, h2, by rw [← h5]; exact hb⟩⟩
  | none =>
    have ht : tableExistsTx tx n = (tx', false) := by
      unfold tableExistsTx
      rw [hq]
    obtain ⟨h1, h2, h3⟩ := execQuery_none tx tx' _ hq
    rw [ht]
    exact ⟨h2, h3, fun hb => by simp at hb⟩

/-! ## C1: atomic replace rolls back on failure -/

/-- Any exception inside the `save_data` transaction is answered by a
rollback: the committed state is the pre-call state. -/
lemma save_data_rollback_aux (faults : List Bool) (df : DataFrame)
    (dest temp : String) (st : DBState)
    (h : (save_data faults df dest temp st).1 = false) :
    (save_data faults df dest temp st).2 = st := by
  rcases hc : _create_or_update_table ⟨st, st, false, faults⟩ dest df with ⟨tx1, r1⟩
  cases r1 with
  | true =>
    have hv : save_data faults df dest temp st = (false, st) := by
      unfold save_data
      rw [hc]
    rw [hv]
  | false =>
    rcases hs : _execute_atomic_swap tx1 dest temp df with ⟨tx2, r2⟩
    cases r2 with
    | true =>
      have hv : save_data faults df dest temp st = (false, st) := by
        unfold save_data
        simp only [hc, hs]
      rw [hv]
    | false =>
      have hv : save_data faults df dest temp st = (true, txCommit tx2) := by
        unfold save_data
        simp only [hc, hs]
      rw [hv] at h
      simp at h

/-- **C1**.  For every dataset, destination, prior state and fault
pattern: if `save_data` reports failure, the whole transaction has been
rolled back — the committed state (hence the destination's contents and
schema, and what `read_data` observes) is exactly what it was before
the call.  No partial write is ever published, because the only commit
happens after every statement of the transaction has succeeded. -/
theorem save_data_failure_rolls_back (faults : List Bool) (df : DataFrame)
    (dest temp : String) (st : DBState)
    (h : (save_data faults df dest temp st).1 = false) :
    (save_data faults df dest temp st).2 = st ∧
      read_data (save_data faults df dest temp st).2 dest = read_data st dest := by
  have h2 := save_data_rollback_aux faults df dest temp st h
  exact ⟨h2, by rw [h2]⟩

/-- Witness for C1: a connection-level fault on the very first statement
makes the save fail and leaves the (empty) namespace untouched. -/
theorem save_data_failure_rolls_back_witness :
    (save_data [true] ⟨[("a", .object)], [[Cell.text ['x']]]⟩ "t" "tmp" []).1 = false ∧
      (save_data [true] ⟨[("a", .object)], [[Cell.text ['x']]]⟩ "t" "tmp" []).2 = [] := by
  refine ⟨rfl, ?_⟩
  exact (save_data_failure_rolls_back [true] ⟨[("a", .object)], [[Cell.text ['x']]]⟩ "t" "tmp" [] rfl).1

/-! ## C9: backup of a missing source -/

/-- **C9**.  For every state, clock reading and fault pattern, when the
source table is absent from the schema-namespace, `backup_data` returns
a failure carrying the NotFound-style message
`"Source table <source> does not exist"`, and the committed state is
untouched: no table (neither the source nor its backup companion) is
created. -/
theorem backup_data_missing_source_not_found (faults : List Bool) (c : ClockReading)
    (source : String) (st : DBState) (h : lookupTable st source = none) :
    backup_data faults c source st = ((false, some (notFoundMsg source)), st) := by
  rcases hq : tableExistsTx ⟨st, st, false, faults⟩ source with ⟨txe, e⟩
  cases e with
  | false =>
    unfold backup_data
    rw [hq]
  | true =>
    exfalso
    obtain ⟨-, -, h3⟩ := tableExistsTx_spec ⟨st, st, false, faults⟩ source
    rw [hq] at h3
    obtain ⟨-, -, htab⟩ := h3 rfl
    simp [hasTable, h] at htab

/-- Witness for C9: backing up `prices` in a namespace holding only `t`
fails with the NotFound message and changes nothing. -/
theorem backup_data_missing_source_not_found_witness :
    backup_data [] ⟨0, 2026, 41⟩ "prices" [("t", ⟨[("a", .text)], []⟩)]
      = ((false, some (notFoundMsg "prices")), [("t", ⟨[("a", .text)], []⟩)]) :=
  backup_data_missing_source_not_found [] ⟨0, 2026, 41⟩ "prices"
    [("t", ⟨[("a", .text)], []⟩)] rfl


/-! ## Catalog lemmas -/

theorem lookupTable_update_self (st : DBState) (n : String) (t' : Table)
    (h : (lookupTable st n).isSome) :
    lookupTable (updateTable st n t') n = some t' := by
  induction st with
  | nil => simp [lookupTable] at h
  | cons p rest ih =>
    by_cases hp : p.1 = n
    · simp [lookupTable, updateTable, hp]
    · simp only [lookupTable, if_neg hp] at h
      simp [lookupTable, updateTable, hp, ih h]

theorem lookupTable_update_ne (st : DBState) (n m : String) (t' : Table)
    (h : m ≠ n) :
    lookupTable (updateTable st n t') m = lookupTable st m := by
  induction st with
  | nil => simp [lookupTable, updateTable]
  | cons p rest ih =>
    by_cases hp : p.1 = n
    · have hpm : ¬(p.1 = m) := by
        rw [hp]
        exact fun hnm => h hnm.symm
      simp [lookupTable, updateTable, hp, hpm, ih, Ne.symm h]
    · by_cases hm : p.1 = m
      · simp [lookupTable, updateTable, hp, hm, h]
      · simp [lookupTable, updateTable, hp, hm, ih]

theorem addColumn_spec (st st' : DBState) (n c : String) (ty : PgType)
    (h : addColumn st n c ty = some st') :
    ∃ t, lookupTable st n = some t ∧ c ∉ t.cols.map Prod.fst ∧
      lookupTable st' n = some ⟨t.cols ++ [(c, ty)], t.rows.map (fun r => r ++ [Cell.null])⟩ ∧
      ∀ m, m ≠ n → lookupTable st' m = lookupTable st m := by
  cases hl : lookupTable st n with
  | none => simp [addColumn, hl] at h
  | some t =>
    by_cases hc : c ∈ t.cols.map Prod.fst
    · simp [addColumn, hl, hc] at h
    · simp only [addColumn, hl, if_neg hc] at h
      injection h with h1
      subst h1
      refine ⟨t, rfl, hc, ?_, ?_⟩
      · exact lookupTable_update_self st n _ (by rw [hl]; rfl)
      · intro m hm
        exact lookupTable_update_ne st n m _ hm

/-- One pass of the ADD-COLUMN loop only ever appends columns whose
names are absent from the destination's current column list. -/
theorem addColumnsLoop_monotonic (dest : String) (cs : List (String × Dtype)) :
    ∀ (tx : Tx) (t : Table), lookupTable tx.db dest = some t →
      ∃ (added : List (String × PgType)) (t' : Table),
        lookupTable (addColumnsLoop dest tx cs).db dest = some t' ∧
        t'.cols = t.cols ++ added ∧
        ∀ p ∈ added, p.1 ∉ t.cols.map Prod.fst := by
  induction cs with
  | nil =>
    intro tx t ht
    exact ⟨[], t, by simpa [addColumnsLoop] using ht, by simp, by simp⟩
  | cons c cs ih =>
    intro tx t ht
    rcases he : execStmt tx (fun db => addColumn db dest c.1 (mapPandasToPostgresType c.2)) with
      ⟨tx', r⟩
    cases r with
    | true =>
      obtain ⟨-, -, hdb⟩ := execStmt_true tx tx' _ he
      refine ⟨[], t, ?_, by simp, by simp⟩
      have hstep : addColumnsLoop dest tx (c :: cs) =
          (match execStmt tx (fun db => addColumn db dest c.1 (mapPandasToPostgresType c.2)) with
           | (txn, false) => addColumnsLoop dest txn cs
           | (txn, true) => txn) := rfl
      rw [he] at hstep
      rw [hstep, hdb]
      exact ht
    | false =>
      obtain ⟨-, -, -, hop, -⟩ := execStmt_false tx tx' _ he
      obtain ⟨t0, ht0, hc0, hl0, -⟩ := addColumn_spec tx.db tx'.db dest c.1 _ hop
      rw [ht] at ht0
      injection ht0 with ht0
      subst ht0
      obtain ⟨added, t', hl', hcols, hfresh⟩ := ih tx' _ hl0
      have hloop : addColumnsLoop dest tx (c :: cs) = addColumnsLoop dest tx' cs := by
        have hstep : addColumnsLoop dest tx (c :: cs) =
            (match execStmt tx (fun db => addColumn db dest c.1 (mapPandasToPostgresType c.2)) with
             | (txn, false) => addColumnsLoop dest txn cs
             | (txn, true) => txn) := rfl
        rw [he] at hstep
        exact hstep
      refine ⟨(c.1, mapPandasToPostgresType c.2) :: added, t', by rw [hloop]; exact hl', ?_, ?_⟩
      · rw [hcols]
        simp [List.append_assoc]
      · intro p hp
        cases hp with
        | head => exact hc0
        | tail _ hp =>
          have := hfresh p hp
          simp only [List.map_append] at this
          intro hmem
          exact this (List.mem_append_left _ hmem)

/-! ## C4: schema synchronisation is monotonic -/

/-- **C4**.  For every transaction state, destination and dataset: if
the destination exists with column list `t.cols` before
`_synchronize_table_schema`, then afterwards its column list is exactly
`t.cols ++ added` for some list of new columns whose names were all
absent before — every pre-existing column keeps its position, name and
declared type (never dropped, renamed or retyped), even when the
dataset's inferred type for that name differs. -/
theorem synchronize_table_schema_monotonic (tx : Tx) (dest : String) (df : DataFrame)
    (t : Table) (ht : lookupTable tx.db dest = some t) :
    ∃ (added : List (String × PgType)) (t' : Table),
      lookupTable (_synchronize_table_schema tx dest df).db dest = some t' ∧
      t'.cols = t.cols ++ added ∧
      ∀ p ∈ added, p.1 ∉ t.cols.map Prod.fst := by
  unfold _synchronize_table_schema
  rcases hq : execQuery tx
      (fun db => ((lookupTable db dest).map (fun t => t.cols.map Prod.fst)).getD []) with
    ⟨tx', r⟩
  cases r with
  | none =>
    obtain ⟨-, -, hdb⟩ := execQuery_none tx tx' _ hq
    rw [hq]
    exact ⟨[], t, by rw [hdb]; exact ht, by simp, by simp⟩
  | some existing =>
    obtain ⟨-, -, -, hdb, -⟩ := execQuery_some tx tx' _ existing hq
    rw [hq]
    exact addColumnsLoop_monotonic dest _ tx' t (by rw [hdb]; exact ht)

/-- Witness for C4: a table with one `TEXT` column `a` receiving a
dataset with columns `a` (different inferred type) and `b`: after
synchronisation the columns are exactly `a TEXT` then `b BIGINT` —
`a` untouched, only `b` added. -/
theorem synchronize_table_schema_monotonic_witness :
    (lookupTable [("t", ⟨[("a", PgType.text)], []⟩)] "t" = some ⟨[("a", PgType.text)], []⟩) ∧
    ∃ (added : List (String × PgType)) (t' : Table),
      lookupTable (_synchronize_table_schema
          ⟨[("t", ⟨[("a", PgType.text)], []⟩)], [("t", ⟨[("a", PgType.text)], []⟩)], false, []⟩
          "t" ⟨[("a", .int64), ("b", .int64)], []⟩).db "t" = some t' ∧
      t'.cols = [("a", PgType.text)] ++ added ∧
      ∀ p ∈ added, p.1 ∉ [("a", PgType.text)].map Prod.fst :=
  ⟨rfl, synchronize_table_schema_monotonic
    ⟨[("t", ⟨[("a", PgType.text)], []⟩)], [("t", ⟨[("a", PgType.text)], []⟩)], false, []⟩
    "t" ⟨[("a", .int64), ("b", .int64)], []⟩ ⟨[("a", PgType.text)], []⟩ rfl⟩


/-! ## C6: schema synchronisation shares the save's transaction -/


/-- **C6 counterexample**.  `ensure_columns` does *not* run in its own
commit boundary.  Concrete run: destination `t` exists with column
`a`; the dataset adds `b`; the schema synchronisation statements all
succeed (the transaction buffer holds `b`, un-aborted), but the
subsequent bulk insert of the atomic replace faults — and the save
rolls the *whole* transaction back: the final committed schema of `t`
is still just `a`.  Under the claim, `ensure_columns`' separate commit
would have persisted `b`. -/
theorem schema_sync_commit_boundary_counterexample :
    (_create_or_update_table ⟨c6State, c6State, false, [false, false, false, false, true]⟩
        "t" c6Df).1.aborted = false ∧
    lookupTable (_create_or_update_table
        ⟨c6State, c6State, false, [false, false, false, false, true]⟩ "t" c6Df).1.db "t"
      = some ⟨[("a", .text), ("b", .bigint)], [[Cell.text ['x'], Cell.null]]⟩ ∧
    save_data [false, false, false, false, true] c6Df "t" "tmp" c6State = (false, c6State) ∧
    lookupTable c6State "t" = some ⟨[("a", .text)], [[Cell.text ['x']]]⟩ := by
  refine ⟨rfl, rfl, ?_, rfl⟩
  rfl

/-- **C6 (amended)**.  Table-creation and column-addition statements
run inside the *same* transaction as the atomic replace, with a single
commit at the end of `save_data`: (1) whenever the save fails, the
whole transaction — schema changes included — is rolled back, so no
partial schema change is ever committed; (2) a catalog error during
column addition is caught inside `_synchronize_table_schema` (only
logged, nothing re-raised — `_create_or_update_table` still reports
`false`), but it leaves the shared transaction aborted, so the
subsequent atomic-replace statements fail and the save attempt returns
failure with the pre-call state. -/
theorem save_data_schema_sync_shares_transaction (faults : List Bool) (df : DataFrame)
    (dest temp : String) (st : DBState) :
    ((save_data faults df dest temp st).1 = false → (save_data faults df dest temp st).2 = st) ∧
    (∀ tx1 : Tx, _create_or_update_table ⟨st, st, false, faults⟩ dest df = (tx1, false) →
      tx1.aborted = true → save_data faults df dest temp st = (false, st)) := by
  constructor
  · exact save_data_rollback_aux faults df dest temp st
  · intro tx1 hc hab
    have he1 : execStmt tx1 (fun db => createTableLike db temp dest) = (tx1, true) := by
      simp [execStmt, hab]
    have hs : _execute_atomic_swap tx1 dest temp df = (tx1, true) := by
      have hstep : _execute_atomic_swap tx1 dest temp df =
          (match execStmt tx1 (fun db => createTableLike db temp dest) with
           | (txn, true) => (txn, true)
           | (txn, false) =>
             match insertDataFrame txn temp df with
             | (txm, true) => (txm, true)
             | (txm, false) => execStmt txm (fun db => swapOp db dest temp ("old_" ++ temp))) := rfl
      rw [he1] at hstep
      exact hstep
    unfold save_data
    simp only [hc, hs]

/-- Witness for the amended C6: a fault on the ADD-COLUMN statement is
swallowed by the synchroniser (it reports `false`, i.e. no exception),
yet the save fails and commits nothing. -/
theorem save_data_schema_sync_shares_transaction_witness :
    _create_or_update_table ⟨c6State, c6State, false, [false, false, true]⟩ "t" c6Df
      = (⟨c6State, c6State, true, []⟩, false) ∧
    (⟨c6State, c6State, true, []⟩ : Tx).aborted = true ∧
    save_data [false, false, true] c6Df "t" "tmp" c6State = (false, c6State) := by
  refine ⟨rfl, rfl, ?_⟩
  exact (save_data_schema_sync_shares_transaction [false, false, true] c6Df "t" "tmp"
    c6State).2 ⟨c6State, c6State, true, []⟩ rfl rfl


/-! ## C7: integer coercion — tolerance vs. exact integrality -/

/-- `np.round` of an exact integer is that integer. -/
theorem roundHalfEven_intCast (n : ℤ) : roundHalfEven (n : ℚ) = n := by
  unfold roundHalfEven
  rw [Int.floor_intCast]
  simp


lemma parse_tinyDecimal :
    _parse_numeric_value (some tinyDecimal) = some ((1 : ℚ)/10000000000) := by
  have hnorm : _normalize_number_string (some tinyDecimal) = tinyDecimal := by decide
  show (if _normalize_number_string (some tinyDecimal) = [] then none
        else parseRat (_normalize_number_string (some tinyDecimal)))
      = some ((1 : ℚ)/10000000000)
  rw [hnorm, if_neg (by decide : ¬(tinyDecimal = ([] : PyStr)))]
  show some (digitsVal ['0'] +
      digitsVal ['0', '0', '0', '0', '0', '0', '0', '0', '0', '1'] / ((10 : ℚ) ^ (10 : ℕ)))
    = some ((1 : ℚ)/10000000000)
  have h0 : digitsValNat ['0'] = 0 := rfl
  have h1 : digitsValNat ['0', '0', '0', '0', '0', '0', '0', '0', '0', '1'] = 1 := rfl
  unfold digitsVal
  rw [h0, h1]
  norm_num

lemma round_tinyDecimal : roundHalfEven ((1 : ℚ)/10000000000) = 0 := by
  unfold roundHalfEven
  have hf : ⌊(1 : ℚ)/10000000000⌋ = 0 := by
    rw [Int.floor_eq_zero_iff]
    constructor <;> norm_num
  rw [hf]
  norm_num

/-- **C7 counterexample**.  The raw value `"0.0000000001"` parses to
`10⁻¹⁰`, whose fractional remainder is within the `1e-9` tolerance of
zero — so the claim demands it be accepted with the integer `0`
emitted.  The code emits null instead (the output mask tests *exact*
equality `numeric == np.round(numeric)`), and records no failure
either. -/
theorem parse_integer_tolerance_counterexample :
    _parse_numeric_value (some tinyDecimal) = some ((1 : ℚ)/10000000000) ∧
    |(1 : ℚ)/10000000000 - (roundHalfEven ((1 : ℚ)/10000000000) : ℚ)| ≤ 1/1000000000 ∧
    _parse_integer_series [some tinyDecimal] = ([none], []) := by
  have habs : |(1 : ℚ)/10000000000 - (roundHalfEven ((1 : ℚ)/10000000000) : ℚ)|
      ≤ 1/1000000000 := by
    rw [round_tinyDecimal]
    rw [abs_of_nonneg (by norm_num : (0 : ℚ) ≤ 1/10000000000 - ((0 : ℤ) : ℚ))]
    norm_num
  refine ⟨parse_tinyDecimal, habs, ?_⟩
  have hne : ¬((1 : ℚ)/10000000000 = (roundHalfEven ((1 : ℚ)/10000000000) : ℚ)) := by
    rw [round_tinyDecimal]
    norm_num
  have hout : (_parse_integer_series [some tinyDecimal]).1 = [none] := by
    show ([some tinyDecimal].map _parse_numeric_value).map (fun nq =>
        match nq with
        | some q => if q = (roundHalfEven q : ℚ) then some (roundHalfEven q) else none
        | none => none) = [none]
    rw [List.map_singleton, parse_tinyDecimal, List.map_singleton]
    simp only [if_neg hne]
  have hfails : (_parse_integer_series [some tinyDecimal]).2 = [] := by
    show (List.range 1).filter (fun i =>
        match ([some tinyDecimal].map _parse_numeric_value).getD i none with
        | some q => decide (|q - (roundHalfEven q : ℚ)| > 1/1000000000)
        | none => false) = []
    rw [show List.range 1 = [0] from rfl, List.filter_singleton]
    have hpred : (match ([some tinyDecimal].map _parse_numeric_value).getD 0 none with
        | some q => decide (|q - (roundHalfEven q : ℚ)| > 1/1000000000)
        | none => false) = false := by
      rw [List.map_singleton, parse_tinyDecimal]
      show decide (|(1 : ℚ)/10000000000 - (roundHalfEven ((1 : ℚ)/10000000000) : ℚ)|
        > 1/1000000000) = false
      rw [decide_eq_false_iff_not]
      exact not_lt.mpr habs
    rw [hpred]
    rfl
  have : _parse_integer_series [some tinyDecimal]
      = ((_parse_integer_series [some tinyDecimal]).1,
         (_parse_integer_series [some tinyDecimal]).2) := rfl
  rw [this, hout, hfails]

/-- Auxiliary: `getD` through `map`. -/
lemma getD_map_of_lt {α β : Type} (f : α → β) (l : List α) (i : ℕ) (d : β) (d' : α)
    (h : i < l.length) : (l.map f).getD i d = f (l.getD i d') := by
  rw [List.getD_eq_getElem?_getD, List.getElem?_map, List.getElem?_eq_getElem h,
    List.getD_eq_getElem?_getD, List.getElem?_eq_getElem h]
  rfl

/-- **C7 (amended)**.  For a raw value at position `i` of an
integer-typed column: the emitted cell is the integer `n` iff the
value parsed *exactly* to `n` (exact integrality, not the `1e-9`
tolerance); a failure is recorded iff the parsed value's distance to
its nearest (half-even) integer exceeds `1e-9`; consequently a value
parsing within `(0, 1e-9]` of an integer — and likewise an
unparseable value — emits null with *no* recorded failure. -/
theorem parse_integer_series_characterization (s : List RawCell) (i : ℕ)
    (hi : i < s.length) :
    (∀ n : ℤ, (_parse_integer_series s).1.getD i none = some n ↔
        _parse_numeric_value (s.getD i none) = some (n : ℚ)) ∧
    (i ∈ (_parse_integer_series s).2 ↔
      ∃ q : ℚ, _parse_numeric_value (s.getD i none) = some q ∧
        |q - (roundHalfEven q : ℚ)| > 1/1000000000) ∧
    (∀ q : ℚ, _parse_numeric_value (s.getD i none) = some q →
      q ≠ (roundHalfEven q : ℚ) → ¬(|q - (roundHalfEven q : ℚ)| > 1/1000000000) →
      (_parse_integer_series s).1.getD i none = none ∧
        i ∉ (_parse_integer_series s).2) := by
  have hnum : (s.map _parse_numeric_value).getD i none
      = _parse_numeric_value (s.getD i none) :=
    getD_map_of_lt _parse_numeric_value s i none none hi
  have hout : (_parse_integer_series s).1.getD i none =
      (match _parse_numeric_value (s.getD i none) with
       | some q => if q = (roundHalfEven q : ℚ) then some (roundHalfEven q) else none
       | none => none) := by
    show ((s.map _parse_numeric_value).map _).getD i none = _
    rw [getD_map_of_lt _ (s.map _parse_numeric_value) i none none (by simpa using hi), hnum]
  have hfails : i ∈ (_parse_integer_series s).2 ↔
      (i < s.length ∧
        (match _parse_numeric_value (s.getD i none) with
         | some q => decide (|q - (roundHalfEven q : ℚ)| > 1/1000000000)
         | none => false) = true) := by
    show i ∈ (List.range s.length).filter _ ↔ _
    rw [List.mem_filter, List.mem_range, hnum]
  refine ⟨?_, ?_, ?_⟩
  · intro n
    rw [hout]
    cases hq : _parse_numeric_value (s.getD i none) with
    | none =>
      exact ⟨(fun h => nomatch h), (fun h => nomatch h)⟩
    | some q =>
      by_cases hint : q = (roundHalfEven q : ℚ)
      · simp only [if_pos hint]
        constructor
        · intro he
          injection he with he
          subst he
          rw [← hint]
        · intro he
          injection he with he
          have h2 : ((roundHalfEven q : ℤ) : ℚ) = (n : ℚ) := by rw [← hint, he]
          have h3 : roundHalfEven q = n := by exact_mod_cast h2
          rw [h3]
      · simp only [if_neg hint]
        constructor
        · intro he
          cases he
        · intro he
          injection he with he
          exact absurd (by rw [he, roundHalfEven_intCast] : q = (roundHalfEven q : ℚ)) hint
  · rw [hfails]
    cases hq : _parse_numeric_value (s.getD i none) with
    | none =>
      constructor
      · rintro ⟨-, hfalse⟩
        cases hfalse
      · rintro ⟨q, hq', -⟩
        cases hq'
    | some q =>
      simp only [decide_eq_true_eq]
      constructor
      · rintro ⟨-, hgt⟩
        exact ⟨q, rfl, hgt⟩
      · rintro ⟨q', hq', hgt⟩
        injection hq' with hq'
        subst hq'
        exact ⟨hi, hgt⟩
  · intro q hq hne hle
    constructor
    · rw [hout, hq]
      simp only [if_neg hne]
    · rw [hfails, hq]
      simp only [decide_eq_true_eq]
      rintro ⟨-, hgt⟩
      exact hle hgt

lemma parse_twoPointFive : _parse_numeric_value (some ['2', '.', '5']) = some ((5 : ℚ)/2) := by
  have hnorm : _normalize_number_string (some ['2', '.', '5']) = ['2', '.', '5'] := by decide
  show (if _normalize_number_string (some ['2', '.', '5']) = [] then none
        else parseRat (_normalize_number_string (some ['2', '.', '5'])))
      = some ((5 : ℚ)/2)
  rw [hnorm, if_neg (by decide : ¬((['2', '.', '5'] : PyStr) = ([] : PyStr)))]
  show some (digitsVal ['2'] + digitsVal ['5'] / ((10 : ℚ) ^ (1 : ℕ))) = some ((5 : ℚ)/2)
  have h2 : digitsValNat ['2'] = 2 := rfl
  have h5 : digitsValNat ['5'] = 5 := rfl
  unfold digitsVal
  rw [h2, h5]
  norm_num

lemma round_twoPointFive : roundHalfEven ((5 : ℚ)/2) = 2 := by
  unfold roundHalfEven
  have hf : ⌊(5 : ℚ)/2⌋ = 2 := by
    rw [Int.floor_eq_iff]
    constructor <;> norm_num
  rw [hf]
  norm_num

/-- Witness for the amended C7: `"2.5"` parses to `5/2`, which is
farther than `1e-9` from its nearest integer, so row 0 is recorded as
a failure. -/
theorem parse_integer_series_characterization_witness :
    0 ∈ (_parse_integer_series [some ['2', '.', '5']]).2 :=
  ((parse_integer_series_characterization [some ['2', '.', '5']] 0 (by decide)).2.1).mpr
    ⟨5/2, parse_twoPointFive, by
      rw [round_twoPointFive]
      have h1 : (5 : ℚ)/2 - ((2 : ℤ) : ℚ) = 1/2 := by
        push_cast
        ring
      rw [h1, abs_of_pos (by norm_num : (0 : ℚ) < 1/2)]
      norm_num⟩


/-! ## C8: the locale heuristics of number normalization -/

lemma span_loop_eq {α : Type} (p : α → Bool) :
    ∀ (l acc : List α), List.span.loop p l acc = (acc.reverse ++ l.takeWhile p, l.dropWhile p) := by
  intro l
  induction l with
  | nil =>
    intro acc
    simp [List.span.loop]
  | cons x xs ih =>
    intro acc
    by_cases h : p x = true
    · simp [List.span.loop, h, List.takeWhile_cons, List.dropWhile_cons, ih]
    · rw [Bool.not_eq_true] at h
      simp [List.span.loop, h, List.takeWhile_cons, List.dropWhile_cons]

lemma span_eq {α : Type} (p : α → Bool) (l : List α) :
    l.span p = (l.takeWhile p, l.dropWhile p) := by
  show List.span.loop p l [] = _
  rw [span_loop_eq]
  simp

lemma takeWhile_middle {α : Type} (p : α → Bool) (a : List α) (x : α) (b : List α)
    (ha : ∀ c ∈ a, p c = true) (hx : p x = false) :
    (a ++ x :: b).takeWhile p = a := by
  induction a with
  | nil => simp [List.takeWhile_cons, hx]
  | cons y ys ih =>
    rw [List.cons_append, List.takeWhile_cons, ha y (by simp),
      ih (fun c hc => ha c (by simp [hc]))]
    simp

lemma dropWhile_middle {α : Type} (p : α → Bool) (a : List α) (x : α) (b : List α)
    (ha : ∀ c ∈ a, p c = true) (hx : p x = false) :
    (a ++ x :: b).dropWhile p = x :: b := by
  induction a with
  | nil => simp [List.dropWhile_cons, hx]
  | cons y ys ih =>
    rw [List.cons_append, List.dropWhile_cons, ha y (by simp),
      ih (fun c hc => ha c (by simp [hc]))]
    simp

lemma getLast?_mem : ∀ {l : PyStr} {c : Char}, l.getLast? = some c → c ∈ l := by
  intro l
  induction l with
  | nil => intro c h; cases h
  | cons x xs ih =>
    intro c h
    cases xs with
    | nil =>
      injection h with h
      subst h
      simp
    | cons y ys =>
      rw [List.getLast?_cons_cons] at h
      exact List.mem_cons_of_mem _ (ih h)

lemma digit_not_space {c : Char} (h : c.isDigit = true) : isPySpace c = false := by
  cases hsp : isPySpace c with
  | false => rfl
  | true =>
    exfalso
    have hor : c = ' ' ∨ c = '\t' ∨ c = '\n' ∨ c = '\r' ∨ c = '\x0b' ∨ c = '\x0c' := by
      simpa [isPySpace, or_assoc] using hsp
    rcases hor with h1 | h1 | h1 | h1 | h1 | h1 <;> (subst h1; exact absurd h (by decide))

lemma digit_keep {c : Char} (h : c.isDigit = true) : keepNumChar c = true := by
  unfold keepNumChar
  rw [h]
  rfl

lemma digit_ne {c x : Char} (h : c.isDigit = true) (hx : x.isDigit = false) : c ≠ x := by
  intro he
  subst he
  rw [h] at hx
  cases hx

lemma pyStrip_eq_self (l : PyStr) (h : ∀ c ∈ l, isPySpace c = false) : pyStrip l = l := by
  unfold pyStrip
  have h1 : l.dropWhile isPySpace = l := by
    cases l with
    | nil => rfl
    | cons x xs => simp [List.dropWhile_cons, h x (by simp)]
  rw [h1]
  have h2 : l.reverse.dropWhile isPySpace = l.reverse := by
    cases hr : l.reverse with
    | nil => rfl
    | cons x xs =>
      have hx : x ∈ l := by
        rw [← List.mem_reverse, hr]
        simp
      simp [List.dropWhile_cons, h x hx]
  rw [h2, List.reverse_reverse]

lemma map_eq_self_of {α : Type} (f : α → α) (l : List α) (h : ∀ c ∈ l, f c = c) :
    l.map f = l := by
  induction l with
  | nil => rfl
  | cons x xs ih =>
    rw [List.map_cons, h x (by simp), ih (fun c hc => h c (by simp [hc]))]

lemma rfindIdx_of_not_mem (l : PyStr) (ch : Char) (h : ∀ x ∈ l, x ≠ ch) :
    rfindIdx l ch = none := by
  induction l with
  | nil => rfl
  | cons x xs ih =>
    unfold rfindIdx
    rw [ih (fun y hy => h y (by simp [hy]))]
    simp [h x (by simp)]

lemma rfindIdx_append (l1 l2 : PyStr) (ch : Char) :
    rfindIdx (l1 ++ l2) ch =
      (match rfindIdx l2 ch with
       | some i => some (l1.length + i)
       | none => rfindIdx l1 ch) := by
  induction l1 with
  | nil =>
    cases h2 : rfindIdx l2 ch <;> simp [h2, rfindIdx]
  | cons x xs ih =>
    show (match rfindIdx (xs ++ l2) ch with
          | some i => some (i + 1)
          | none => if x = ch then some 0 else none) = _
    rw [ih]
    cases h2 : rfindIdx l2 ch with
    | some i =>
      show some (xs.length + i + 1) = some ((x :: xs).length + i)
      congr 1
      simp only [List.length_cons]
      omega
    | none =>
      show (match rfindIdx xs ch with
            | some i => some (i + 1)
            | none => if x = ch then some 0 else none) = rfindIdx (x :: xs) ch
      rfl


/-- On a stripped, clean payload (no whitespace, no stripped-out
characters, no `%` suffix) the normalizer is exactly its separator
heuristic followed by the `+`-strip and the `"-"` special case. -/
lemma normalize_clean (s : PyStr) (hne : ¬(s = []))
    (hsp : ∀ c ∈ s, isPySpace c = false)
    (hkp : ∀ c ∈ s, keepNumChar c = true)
    (hpc : ¬(s.getLast? = some '%')) :
    _normalize_number_string (some s) =
      (let s4 :=
        if ',' ∈ s ∧ '.' ∈ s then
          if (rfindIdx s ',').getD 0 > (rfindIdx s '.').getD 0 then
            (s.filter (fun c => c ≠ '.')).map (fun c => if c = ',' then '.' else c)
          else s.filter (fun c => c ≠ ',')
        else if ',' ∈ s then
          if s.count ',' = 1 ∧ matchesDecimalComma s then
            s.map (fun c => if c = ',' then '.' else c)
          else s.filter (fun c => c ≠ ',')
        else s
       let s5 := s4.dropWhile (fun c => c = '+')
       if s5 = ['-'] then '-' :: s5 else s5) := by
  have h1 : pyStrip s = s := pyStrip_eq_self s hsp
  have h2 : s.filter keepNumChar = s := List.filter_eq_self.mpr hkp
  simp only [_normalize_number_string]
  rw [h1, if_neg hne, h2, if_neg hpc]

/-- The comma-decimal branch of the heuristic, in its general form: a
lone comma with one or more digits on both sides becomes the decimal
dot. -/
theorem normalize_lone_comma (a b : PyStr) (hane : a ≠ []) (hbne : b ≠ [])
    (ha : ∀ c ∈ a, c.isDigit = true) (hb : ∀ c ∈ b, c.isDigit = true) :
    _normalize_number_string (some (a ++ ',' :: b)) = a ++ '.' :: b := by
  have hmem : ∀ c ∈ a ++ ',' :: b, c.isDigit = true ∨ c = ',' := by
    intro c hc
    rcases List.mem_append.mp hc with h | h
    · exact Or.inl (ha c h)
    · rcases List.mem_cons.mp h with h | h
      · exact Or.inr h
      · exact Or.inl (hb c h)
  have hsp : ∀ c ∈ a ++ ',' :: b, isPySpace c = false := by
    intro c hc
    rcases hmem c hc with h | h
    · exact digit_not_space h
    · subst h; decide
  have hkp : ∀ c ∈ a ++ ',' :: b, keepNumChar c = true := by
    intro c hc
    rcases hmem c hc with h | h
    · exact digit_keep h
    · subst h; decide
  have hne : ¬(a ++ ',' :: b = []) := by simp
  have hpc : ¬((a ++ ',' :: b).getLast? = some '%') := by
    intro hl
    rcases hmem '%' (getLast?_mem hl) with h | h
    · exact absurd h (by decide)
    · exact absurd h (by decide)
  rw [normalize_clean _ hne hsp hkp hpc]
  have hdot : ¬('.' ∈ a ++ ',' :: b) := by
    intro hd
    rcases hmem '.' hd with h | h
    · exact absurd h (by decide)
    · exact absurd h (by decide)
  rw [if_neg (show ¬(',' ∈ a ++ ',' :: b ∧ '.' ∈ a ++ ',' :: b) from fun hand => hdot hand.2)]
  rw [if_pos (show ',' ∈ a ++ ',' :: b by simp)]
  have hca : a.count ',' = 0 :=
    List.count_eq_zero.mpr (fun hm => absurd (ha ',' hm) (by decide))
  have hcb : b.count ',' = 0 :=
    List.count_eq_zero.mpr (fun hm => absurd (hb ',' hm) (by decide))
  have hcount : (a ++ ',' :: b).count ',' = 1 := by
    rw [List.count_append, hca, List.count_cons, hcb]
    simp
  have hmatch : matchesDecimalComma (a ++ ',' :: b) = true := by
    obtain ⟨h0, a', rfl⟩ : ∃ h0 a', a = h0 :: a' := by
      cases a with
      | nil => exact absurd rfl hane
      | cons h0 a' => exact ⟨h0, a', rfl⟩
    unfold matchesDecimalComma
    rw [List.cons_append, List.head?_cons]
    rw [if_neg (by
      intro he
      injection he with he
      exact absurd he (digit_ne (ha h0 (by simp)) (by decide)))]
    simp only [span_eq]
    have htw : List.takeWhile Char.isDigit (h0 :: (a' ++ ',' :: b)) = h0 :: a' := by
      rw [← List.cons_append]
      exact takeWhile_middle Char.isDigit (h0 :: a') ',' b ha (by decide)
    have hdw : List.dropWhile Char.isDigit (h0 :: (a' ++ ',' :: b)) = ',' :: b := by
      rw [← List.cons_append]
      exact dropWhile_middle Char.isDigit (h0 :: a') ',' b ha (by decide)
    rw [htw, hdw]
    show (!(h0 :: a').isEmpty && !b.isEmpty && b.all Char.isDigit) = true
    rw [Bool.and_eq_true, Bool.and_eq_true]
    refine ⟨⟨by simp, ?_⟩, ?_⟩
    · cases b with
      | nil => exact absurd rfl hbne
      | cons y ys => simp
    · exact List.all_eq_true.mpr hb
  rw [if_pos (show (a ++ ',' :: b).count ',' = 1 ∧ matchesDecimalComma (a ++ ',' :: b) = true
    from ⟨hcount, hmatch⟩)]
  have hmap : (a ++ ',' :: b).map (fun c => if c = ',' then '.' else c) = a ++ '.' :: b := by
    rw [List.map_append, List.map_cons]
    rw [map_eq_self_of _ a (fun c hc => if_neg (digit_ne (ha c hc) (by decide)))]
    rw [map_eq_self_of _ b (fun c hc => if_neg (digit_ne (hb c hc) (by decide)))]
    simp
  rw [hmap]
  obtain ⟨h0, a', rfl⟩ : ∃ h0 a', a = h0 :: a' := by
    cases a with
    | nil => exact absurd rfl hane
    | cons h0 a' => exact ⟨h0, a', rfl⟩
  have hdrop : List.dropWhile (fun c => decide (c = '+')) (h0 :: a' ++ '.' :: b)
      = h0 :: a' ++ '.' :: b := by
    rw [List.cons_append, List.dropWhile_cons]
    have hplus : (decide (h0 = '+')) = false :=
      decide_eq_false (digit_ne (ha h0 (by simp)) (by decide))
    rw [hplus]
    simp
  have hne2 : ¬(h0 :: a' ++ '.' :: b = ['-']) := by
    intro he
    rw [List.cons_append] at he
    injection he with he1 he2
    exact absurd he1 (digit_ne (ha h0 (by simp)) (by decide))
  simp only [hdrop, if_neg hne2]


lemma rfindIdx_cons_self (l : PyStr) (ch : Char) (h : rfindIdx l ch = none) :
    rfindIdx (ch :: l) ch = some 0 := by
  unfold rfindIdx
  rw [h]
  simp

lemma rfindIdx_cons_ne (x : Char) (l : PyStr) (ch : Char) (hx : x ≠ ch)
    (h : rfindIdx l ch = none) : rfindIdx (x :: l) ch = none := by
  unfold rfindIdx
  rw [h]
  simp [hx]

lemma rfindIdx_digits (l : PyStr) (hl : ∀ c ∈ l, c.isDigit = true) (x : Char)
    (hx : x.isDigit = false) : rfindIdx l x = none :=
  rfindIdx_of_not_mem l x (fun c hc => digit_ne (hl c hc) hx)

lemma digits_filter_ne (l : PyStr) (hl : ∀ c ∈ l, c.isDigit = true) (x : Char)
    (hx : x.isDigit = false) : l.filter (fun c => decide (c ≠ x)) = l :=
  List.filter_eq_self.mpr (fun c hc => decide_eq_true (digit_ne (hl c hc) hx))

lemma digits_map_commaToDot (l : PyStr) (hl : ∀ c ∈ l, c.isDigit = true) :
    l.map (fun c => if c = ',' then '.' else c) = l :=
  map_eq_self_of _ l (fun c hc => if_neg (digit_ne (hl c hc) (by decide)))

/-- Shared scaffolding for the two both-separators branches: the
cleanliness facts for a word made of digits and the two separators. -/
lemma sepchars_facts (s : PyStr) (hmem : ∀ ch ∈ s, ch.isDigit = true ∨ ch = ',' ∨ ch = '.') (hlast : ∀ ch : Char, s.getLast? = some ch → ch.isDigit = true) :
    (∀ ch ∈ s, isPySpace ch = false) ∧ (∀ ch ∈ s, keepNumChar ch = true) ∧
      ¬(s.getLast? = some '%') := by
  refine ⟨?_, ?_, ?_⟩
  · intro ch hc
    rcases hmem ch hc with h | h | h
    · exact digit_not_space h
    · subst h; decide
    · subst h; decide
  · intro ch hc
    rcases hmem ch hc with h | h | h
    · exact digit_keep h
    · subst h; decide
    · subst h; decide
  · intro hl
    exact absurd (hlast '%' hl) (by decide)

/-- The rightmost-comma branch of the heuristic: with both separators
present and the comma rightmost, dots are removed and the comma
becomes the decimal dot. -/
theorem normalize_dot_then_comma (a b c : PyStr) (hane : a ≠ []) (hcne : c ≠ [])
    (ha : ∀ ch ∈ a, ch.isDigit = true) (hb : ∀ ch ∈ b, ch.isDigit = true)
    (hc : ∀ ch ∈ c, ch.isDigit = true) :
    _normalize_number_string (some (a ++ '.' :: (b ++ ',' :: c))) = (a ++ b) ++ '.' :: c := by
  have hmem : ∀ ch ∈ a ++ '.' :: (b ++ ',' :: c), ch.isDigit = true ∨ ch = ',' ∨ ch = '.' := by
    intro ch hch
    rcases List.mem_append.mp hch with h | h
    · exact Or.inl (ha ch h)
    · rcases List.mem_cons.mp h with h | h
      · exact Or.inr (Or.inr h)
      · rcases List.mem_append.mp h with h | h
        · exact Or.inl (hb ch h)
        · rcases List.mem_cons.mp h with h | h
          · exact Or.inr (Or.inl h)
          · exact Or.inl (hc ch h)
  have hlast : ∀ ch : Char, (a ++ '.' :: (b ++ ',' :: c)).getLast? = some ch →
      ch.isDigit = true := by
    intro ch hl
    obtain ⟨c0, c', rfl⟩ : ∃ c0 c', c = c0 :: c' := by
      cases c with
      | nil => exact absurd rfl hcne
      | cons c0 c' => exact ⟨c0, c', rfl⟩
    have hsplit : a ++ '.' :: (b ++ ',' :: c0 :: c')
        = (a ++ '.' :: b ++ [',']) ++ (c0 :: c') := by simp
    rw [hsplit, List.getLast?_append_of_ne_nil _ (by simp)] at hl
    exact hc _ (getLast?_mem hl)
  obtain ⟨hsp, hkp, hpc⟩ := sepchars_facts _ hmem hlast
  rw [normalize_clean _ (by simp) hsp hkp hpc]
  have hrc : rfindIdx (a ++ '.' :: (b ++ ',' :: c)) ',' = some (a.length + b.length + 1) := by
    have hs : a ++ '.' :: (b ++ ',' :: c) = (a ++ '.' :: b) ++ ',' :: c := by simp
    rw [hs, rfindIdx_append]
    rw [rfindIdx_cons_self c ',' (rfindIdx_digits c hc ',' (by decide))]
    simp [List.length_append]
    omega
  have hrd : rfindIdx (a ++ '.' :: (b ++ ',' :: c)) '.' = some a.length := by
    have hs : a ++ '.' :: (b ++ ',' :: c) = (a ++ '.' :: b) ++ ',' :: c := by simp
    rw [hs, rfindIdx_append]
    rw [rfindIdx_cons_ne ',' c '.' (by decide) (rfindIdx_digits c hc '.' (by decide))]
    rw [rfindIdx_append]
    rw [rfindIdx_cons_self b '.' (rfindIdx_digits b hb '.' (by decide))]
    rw [show rfindIdx a '.' = none from rfindIdx_digits a ha '.' (by decide)]
    simp
  rw [if_pos (show ',' ∈ a ++ '.' :: (b ++ ',' :: c) ∧ '.' ∈ a ++ '.' :: (b ++ ',' :: c)
    from ⟨by simp, by simp⟩)]
  rw [hrc, hrd]
  rw [if_pos (show (some (a.length + b.length + 1)).getD 0 > (some a.length).getD 0 from by
    simp
    omega)]
  have hfilter : (a ++ '.' :: (b ++ ',' :: c)).filter (fun ch => decide (ch ≠ '.'))
      = a ++ (b ++ ',' :: c) := by
    rw [List.filter_append, List.filter_cons]
    rw [digits_filter_ne a ha '.' (by decide)]
    have hbc : (b ++ ',' :: c).filter (fun ch => decide (ch ≠ '.')) = b ++ ',' :: c := by
      rw [List.filter_append, List.filter_cons]
      rw [digits_filter_ne b hb '.' (by decide), digits_filter_ne c hc '.' (by decide)]
      simp
    rw [hbc]
    simp
  rw [hfilter]
  have hmap : (a ++ (b ++ ',' :: c)).map (fun ch => if ch = ',' then '.' else ch)
      = (a ++ b) ++ '.' :: c := by
    rw [List.map_append, List.map_append, List.map_cons]
    rw [digits_map_commaToDot a ha, digits_map_commaToDot b hb, digits_map_commaToDot c hc]
    simp
  rw [hmap]
  obtain ⟨h0, a', rfl⟩ : ∃ h0 a', a = h0 :: a' := by
    cases a with
    | nil => exact absurd rfl hane
    | cons h0 a' => exact ⟨h0, a', rfl⟩
  have hdrop : List.dropWhile (fun ch => decide (ch = '+')) ((h0 :: a' ++ b) ++ '.' :: c)
      = (h0 :: a' ++ b) ++ '.' :: c := by
    rw [List.cons_append, List.cons_append, List.dropWhile_cons]
    have hplus : (decide (h0 = '+')) = false :=
      decide_eq_false (digit_ne (ha h0 (by simp)) (by decide))
    rw [hplus]
    simp
  have hne2 : ¬((h0 :: a' ++ b) ++ '.' :: c = ['-']) := by
    intro he
    rw [List.cons_append, List.cons_append] at he
    injection he with he1 he2
    exact absurd he1 (digit_ne (ha h0 (by simp)) (by decide))
  simp only [hdrop, if_neg hne2]

/-- The rightmost-dot branch of the heuristic: with both separators
present and the dot rightmost, commas are removed as grouping. -/
theorem normalize_comma_then_dot (a b c : PyStr) (hane : a ≠ []) (hcne : c ≠ [])
    (ha : ∀ ch ∈ a, ch.isDigit = true) (hb : ∀ ch ∈ b, ch.isDigit = true)
    (hc : ∀ ch ∈ c, ch.isDigit = true) :
    _normalize_number_string (some (a ++ ',' :: (b ++ '.' :: c))) = (a ++ b) ++ '.' :: c := by
  have hmem : ∀ ch ∈ a ++ ',' :: (b ++ '.' :: c), ch.isDigit = true ∨ ch = ',' ∨ ch = '.' := by
    intro ch hch
    rcases List.mem_append.mp hch with h | h
    · exact Or.inl (ha ch h)
    · rcases List.mem_cons.mp h with h | h
      · exact Or.inr (Or.inl h)
      · rcases List.mem_append.mp h with h | h
        · exact Or.inl (hb ch h)
        · rcases List.mem_cons.mp h with h | h
          · exact Or.inr (Or.inr h)
          · exact Or.inl (hc ch h)
  have hlast : ∀ ch : Char, (a ++ ',' :: (b ++ '.' :: c)).getLast? = some ch →
      ch.isDigit = true := by
    intro ch hl
    obtain ⟨c0, c', rfl⟩ : ∃ c0 c', c = c0 :: c' := by
      cases c with
      | nil => exact absurd rfl hcne
      | cons c0 c' => exact ⟨c0, c', rfl⟩
    have hsplit : a ++ ',' :: (b ++ '.' :: c0 :: c')
        = (a ++ ',' :: b ++ ['.']) ++ (c0 :: c') := by simp
    rw [hsplit, List.getLast?_append_of_ne_nil _ (by simp)] at hl
    exact hc _ (getLast?_mem hl)
  obtain ⟨hsp, hkp, hpc⟩ := sepchars_facts _ hmem hlast
  rw [normalize_clean _ (by simp) hsp hkp hpc]
  have hrc : rfindIdx (a ++ ',' :: (b ++ '.' :: c)) ',' = some a.length := by
    have hs : a ++ ',' :: (b ++ '.' :: c) = (a ++ ',' :: b) ++ '.' :: c := by simp
    rw [hs, rfindIdx_append]
    rw [rfindIdx_cons_ne '.' c ',' (by decide) (rfindIdx_digits c hc ',' (by decide))]
    rw [rfindIdx_append]
    rw [rfindIdx_cons_self b ',' (rfindIdx_digits b hb ',' (by decide))]
    rw [show rfindIdx a ',' = none from rfindIdx_digits a ha ',' (by decide)]
    simp
  have hrd : rfindIdx (a ++ ',' :: (b ++ '.' :: c)) '.' = some (a.length + b.length + 1) := by
    have hs : a ++ ',' :: (b ++ '.' :: c) = (a ++ ',' :: b) ++ '.' :: c := by simp
    rw [hs, rfindIdx_append]
    rw [rfindIdx_cons_self c '.' (rfindIdx_digits c hc '.' (by decide))]
    simp [List.length_append]
    omega
  rw [if_pos (show ',' ∈ a ++ ',' :: (b ++ '.' :: c) ∧ '.' ∈ a ++ ',' :: (b ++ '.' :: c)
    from ⟨by simp, by simp⟩)]
  rw [hrc, hrd]
  rw [if_neg (show ¬((some a.length).getD 0 > (some (a.length + b.length + 1)).getD 0) from by
    simp
    omega)]
  have hfilter : (a ++ ',' :: (b ++ '.' :: c)).filter (fun ch => decide (ch ≠ ','))
      = (a ++ b) ++ '.' :: c := by
    rw [List.filter_append, List.filter_cons]
    rw [digits_filter_ne a ha ',' (by decide)]
    have hbc : (b ++ '.' :: c).filter (fun ch => decide (ch ≠ ',')) = b ++ '.' :: c := by
      rw [List.filter_append, List.filter_cons]
      rw [digits_filter_ne b hb ',' (by decide), digits_filter_ne c hc ',' (by decide)]
      simp
    rw [hbc]
    simp
  rw [hfilter]
  obtain ⟨h0, a', rfl⟩ : ∃ h0 a', a = h0 :: a' := by
    cases a with
    | nil => exact absurd rfl hane
    | cons h0 a' => exact ⟨h0, a', rfl⟩
  have hdrop : List.dropWhile (fun ch => decide (ch = '+')) ((h0 :: a' ++ b) ++ '.' :: c)
      = (h0 :: a' ++ b) ++ '.' :: c := by
    rw [List.cons_append, List.cons_append, List.dropWhile_cons]
    have hplus : (decide (h0 = '+')) = false :=
      decide_eq_false (digit_ne (ha h0 (by simp)) (by decide))
    rw [hplus]
    simp
  have hne2 : ¬((h0 :: a' ++ b) ++ '.' :: c = ['-']) := by
    intro he
    rw [List.cons_append, List.cons_append] at he
    injection he with he1 he2
    exact absurd he1 (digit_ne (ha h0 (by simp)) (by decide))
  simp only [hdrop, if_neg hne2]


/-- **C8 counterexample**.  The claim says a lone comma followed by
*1–2* digits at the end is decimal, anything else grouping — so
`"1,234"` (three digits after the comma) would have to normalize to
`"1234"`.  The code's regex `^-?\d+,\d+$` accepts *one or more*
digits, so `"1,234"` normalizes to `"1.234"` and parses to `617/500`,
not `1234`. -/
theorem comma_heuristic_counterexample :
    _normalize_number_string (some ['1', ',', '2', '3', '4']) = ['1', '.', '2', '3', '4'] ∧
    ¬(_normalize_number_string (some ['1', ',', '2', '3', '4']) = ['1', '2', '3', '4']) ∧
    _parse_numeric_value (some ['1', ',', '2', '3', '4']) = some ((1234 : ℚ)/1000) := by
  refine ⟨by decide, by decide, ?_⟩
  have hnorm : _normalize_number_string (some ['1', ',', '2', '3', '4'])
      = ['1', '.', '2', '3', '4'] := by decide
  show (if _normalize_number_string (some ['1', ',', '2', '3', '4']) = [] then none
        else parseRat (_normalize_number_string (some ['1', ',', '2', '3', '4'])))
      = some ((1234 : ℚ)/1000)
  rw [hnorm, if_neg (by decide : ¬((['1', '.', '2', '3', '4'] : PyStr) = ([] : PyStr)))]
  show some (digitsVal ['1'] + digitsVal ['2', '3', '4'] / ((10 : ℚ) ^ (3 : ℕ)))
    = some ((1234 : ℚ)/1000)
  have h1 : digitsValNat ['1'] = 1 := rfl
  have h2 : digitsValNat ['2', '3', '4'] = 234 := rfl
  unfold digitsVal
  rw [h1, h2]
  norm_num

lemma parse_one : _parse_numeric_value (some ['1']) = some (1 : ℚ) := by
  show (if _normalize_number_string (some ['1']) = [] then none
        else parseRat (_normalize_number_string (some ['1']))) = some (1 : ℚ)
  rw [show _normalize_number_string (some ['1']) = ['1'] from by decide,
    if_neg (by decide : ¬((['1'] : PyStr) = ([] : PyStr)))]
  show some (digitsVal ['1']) = some (1 : ℚ)
  unfold digitsVal
  rw [show digitsValNat ['1'] = 1 from rfl]
  norm_num

lemma scenario_id_column : _parse_integer_series [some ['1']] = ([some 1], []) := by
  have hround : roundHalfEven (1 : ℚ) = 1 := by
    rw [show (1 : ℚ) = ((1 : ℤ) : ℚ) from by norm_num, roundHalfEven_intCast]
  have hout : (_parse_integer_series [some ['1']]).1 = [some 1] := by
    show ([some ['1']].map _parse_numeric_value).map (fun nq =>
        match nq with
        | some q => if q = (roundHalfEven q : ℚ) then some (roundHalfEven q) else none
        | none => none) = [some 1]
    rw [List.map_singleton, parse_one, List.map_singleton]
    show [if (1 : ℚ) = (roundHalfEven (1 : ℚ) : ℚ) then some (roundHalfEven (1 : ℚ)) else none]
      = [some 1]
    rw [if_pos (show (1 : ℚ) = (roundHalfEven (1 : ℚ) : ℚ) from by rw [hround]; norm_num)]
    rw [hround]
  have hfails : (_parse_integer_series [some ['1']]).2 = [] := by
    show (List.range 1).filter (fun i =>
        match ([some ['1']].map _parse_numeric_value).getD i none with
        | some q => decide (|q - (roundHalfEven q : ℚ)| > 1/1000000000)
        | none => false) = []
    rw [show List.range 1 = [0] from rfl, List.filter_singleton]
    have hpred : (match ([some ['1']].map _parse_numeric_value).getD 0 none with
        | some q => decide (|q - (roundHalfEven q : ℚ)| > 1/1000000000)
        | none => false) = false := by
      rw [List.map_singleton, parse_one]
      show decide (|(1 : ℚ) - (roundHalfEven (1 : ℚ) : ℚ)| > 1/1000000000) = false
      rw [decide_eq_false_iff_not, hround]
      norm_num
    rw [hpred]
    rfl
  have hsplit : _parse_integer_series [some ['1']]
      = ((_parse_integer_series [some ['1']]).1, (_parse_integer_series [some ['1']]).2) := rfl
  rw [hsplit, hout, hfails]


lemma parse_euroPrice : _parse_numeric_value (some euroPrice) = some ((123456 : ℚ)/100) := by
  have hnorm : _normalize_number_string (some euroPrice)
      = ['1', '2', '3', '4', '.', '5', '6'] := by decide
  show (if _normalize_number_string (some euroPrice) = [] then none
        else parseRat (_normalize_number_string (some euroPrice))) = some ((123456 : ℚ)/100)
  rw [hnorm, if_neg (by decide : ¬((['1', '2', '3', '4', '.', '5', '6'] : PyStr) = ([] : PyStr)))]
  show some (digitsVal ['1', '2', '3', '4'] + digitsVal ['5', '6'] / ((10 : ℚ) ^ (2 : ℕ)))
    = some ((123456 : ℚ)/100)
  have h1 : digitsValNat ['1', '2', '3', '4'] = 1234 := rfl
  have h2 : digitsValNat ['5', '6'] = 56 := rfl
  unfold digitsVal
  rw [h1, h2]
  norm_num

lemma scenario_price_column :
    _parse_numeric_series [some euroPrice] = ([some ((123456 : ℚ)/100)], []) := by
  have hnum : [some euroPrice].map _parse_numeric_value = [some ((123456 : ℚ)/100)] := by
    rw [List.map_singleton, parse_euroPrice]
  have hfails : (_parse_numeric_series [some euroPrice]).2 = [] := by
    show (List.range 1).filter (fun i =>
        (([some euroPrice].map _parse_numeric_value).getD i none).isNone
          && (([some euroPrice] : List RawCell).getD i none).isSome) = []
    rw [show List.range 1 = [0] from rfl, List.filter_singleton]
    rw [hnum]
    rfl
  have hsplit : _parse_numeric_series [some euroPrice]
      = ([some euroPrice].map _parse_numeric_value, (_parse_numeric_series [some euroPrice]).2) :=
    rfl
  rw [hsplit, hnum, hfails]

/-- **C8 (amended)**.  The normalization heuristic, as implemented:
when a value contains both `,` and `.`, the rightmost of the two is
the decimal separator and the other is removed; a lone comma with
digits before it and *one or more* digits after it (regex
`^-?\d+,\d+$` — not just 1–2 digits) is the decimal separator;
consequently the scenario row `{id: "1", price: "1.234,56",
active: "yes"}` coerced against integer/float/boolean target types
yields `{id: 1, price: 1234.56, active: true}` with zero recorded
failures. -/
theorem normalize_heuristics_and_scenario :
    (∀ a b : PyStr, a ≠ [] → b ≠ [] →
      (∀ ch ∈ a, ch.isDigit = true) → (∀ ch ∈ b, ch.isDigit = true) →
      _normalize_number_string (some (a ++ ',' :: b)) = a ++ '.' :: b) ∧
    (∀ a b c : PyStr, a ≠ [] → c ≠ [] →
      (∀ ch ∈ a, ch.isDigit = true) → (∀ ch ∈ b, ch.isDigit = true) →
      (∀ ch ∈ c, ch.isDigit = true) →
      _normalize_number_string (some (a ++ '.' :: (b ++ ',' :: c))) = (a ++ b) ++ '.' :: c) ∧
    (∀ a b c : PyStr, a ≠ [] → c ≠ [] →
      (∀ ch ∈ a, ch.isDigit = true) → (∀ ch ∈ b, ch.isDigit = true) →
      (∀ ch ∈ c, ch.isDigit = true) →
      _normalize_number_string (some (a ++ ',' :: (b ++ '.' :: c))) = (a ++ b) ++ '.' :: c) ∧
    _parse_integer_series [some ['1']] = ([some 1], []) ∧
    _parse_numeric_series [some euroPrice] = ([some ((123456 : ℚ)/100)], []) ∧
    _parse_boolean_series [some ['y', 'e', 's']] = ([some true], []) :=
  ⟨normalize_lone_comma, normalize_dot_then_comma, normalize_comma_then_dot,
    scenario_id_column, scenario_price_column, by decide⟩

/-- Witness for the amended C8: the lone-comma clause applied to the
counterexample's own input `"1,234"`, plus the decimal-comma scenario
value `"1234,56"`. -/
theorem normalize_heuristics_and_scenario_witness :
    _normalize_number_string (some (['1'] ++ ',' :: ['2', '3', '4'])) = ['1'] ++ '.' :: ['2', '3', '4'] ∧
    _normalize_number_string (some (['1', '2', '3', '4'] ++ ',' :: ['5', '6']))
      = ['1', '2', '3', '4'] ++ '.' :: ['5', '6'] :=
  ⟨normalize_heuristics_and_scenario.1 ['1'] ['2', '3', '4'] (by decide) (by decide)
      (by decide) (by decide),
    normalize_heuristics_and_scenario.1 ['1', '2', '3', '4'] ['5', '6'] (by decide) (by decide)
      (by decide) (by decide)⟩


/-! ## C10: the coercion pass only touches schema-declared columns -/

lemma map_congr_fn {α β : Type} (f g : α → β) (l : List α) (h : ∀ x ∈ l, f x = g x) :
    l.map f = l.map g := by
  induction l with
  | nil => rfl
  | cons x xs ih =>
    rw [List.map_cons, List.map_cons, h x (by simp), ih (fun y hy => h y (by simp [hy]))]

lemma lookupColInfo_eq_none (schema : List (String × ColInfo)) (n : String)
    (h : n ∉ schema.map Prod.fst) : lookupColInfo schema n = none := by
  unfold lookupColInfo
  rw [List.find?_eq_none.mpr]
  · rfl
  · intro q hq hbeq
    exact h (by
      rw [show n = q.1 from (beq_iff_eq.mp hbeq).symm]
      exact List.mem_map_of_mem Prod.fst hq)

/-- **C10**.  The coercion pass leaves every DataFrame column whose
name is not declared in the reflected target schema completely
unchanged; when the schema reflection raised (`none`) or found no
columns (`some []` — table absent), it returns the input DataFrame
unchanged rather than raising; and the pass never adds, drops or
renames columns, so only columns named in the target schema are ever
modified. -/
theorem auto_cast_to_sql_frame (toDatetime : RawCell → Option ℤ) (dateOf : ℤ → ℤ)
    (parseJson : PyStr → Option PyStr) (df : List (String × List RawCell)) :
    (∀ tableSchema : Option (List (String × ColInfo)),
      tableSchema = none ∨ tableSchema = some [] →
      auto_cast_to_sql toDatetime dateOf parseJson tableSchema df
        = df.map (fun p => (p.1, embedCol p.2))) ∧
    (∀ tableSchema : Option (List (String × ColInfo)),
      (auto_cast_to_sql toDatetime dateOf parseJson tableSchema df).map Prod.fst
        = df.map Prod.fst) ∧
    (∀ (schema : List (String × ColInfo)) (i : ℕ), i < df.length →
      (df.getD i ("", [])).1 ∉ schema.map Prod.fst →
      (auto_cast_to_sql toDatetime dateOf parseJson (some schema) df).getD i ("", [])
        = ((df.getD i ("", [])).1, embedCol (df.getD i ("", [])).2)) := by
  refine ⟨?_, ?_, ?_⟩
  · rintro tableSchema (rfl | rfl) <;> rfl
  · intro tableSchema
    cases tableSchema with
    | none =>
      rw [show auto_cast_to_sql toDatetime dateOf parseJson none df
        = df.map (fun p => (p.1, embedCol p.2)) from rfl, List.map_map]
      exact map_congr_fn _ _ df (fun p _ => rfl)
    | some schema =>
      cases schema with
      | nil =>
        rw [show auto_cast_to_sql toDatetime dateOf parseJson (some []) df
          = df.map (fun p => (p.1, embedCol p.2)) from rfl, List.map_map]
        exact map_congr_fn _ _ df (fun p _ => rfl)
      | cons q qs =>
        have hunf : auto_cast_to_sql toDatetime dateOf parseJson (some (q :: qs)) df
            = df.map (fun p =>
              match lookupColInfo (q :: qs) p.1 with
              | none => (p.1, embedCol p.2)
              | some info => (p.1, convertColumn toDatetime dateOf parseJson info p.2)) := rfl
        rw [hunf, List.map_map]
        refine map_congr_fn _ _ df (fun p _ => ?_)
        show (match lookupColInfo (q :: qs) p.1 with
              | none => (p.1, embedCol p.2)
              | some info => (p.1, convertColumn toDatetime dateOf parseJson info p.2)).1 = p.1
        cases lookupColInfo (q :: qs) p.1 <;> rfl
  · intro schema i hi hnot
    cases schema with
    | nil =>
      have hunf : auto_cast_to_sql toDatetime dateOf parseJson (some []) df
          = df.map (fun p => (p.1, embedCol p.2)) := rfl
      rw [hunf, getD_map_of_lt _ df i ("", []) ("", []) hi]
    | cons q qs =>
      have hunf : auto_cast_to_sql toDatetime dateOf parseJson (some (q :: qs)) df
          = df.map (fun p =>
            match lookupColInfo (q :: qs) p.1 with
            | none => (p.1, embedCol p.2)
            | some info => (p.1, convertColumn toDatetime dateOf parseJson info p.2)) := rfl
      rw [hunf, getD_map_of_lt _ df i ("", []) ("", []) hi]
      rw [lookupColInfo_eq_none (q :: qs) _ hnot]

/-- Witness for C10: a one-column DataFrame `x` against a schema
declaring only `y`: reflection-failure and empty-schema runs return
the frame unchanged, and column `x` is carried over untouched. -/
theorem auto_cast_to_sql_frame_witness :
    auto_cast_to_sql (fun _ => none) (fun t => t) (fun _ => none) none
        [("x", [some ['1'], none])]
      = [("x", [Cell.text ['1'], Cell.null])] ∧
    (auto_cast_to_sql (fun _ => none) (fun t => t) (fun _ => none)
        (some [("y", ("integer", "int4"))]) [("x", [some ['1'], none])]).getD 0 ("", [])
      = ("x", [Cell.text ['1'], Cell.null]) := by
  constructor
  · exact (auto_cast_to_sql_frame (fun _ => none) (fun t => t) (fun _ => none)
      [("x", [some ['1'], none])]).1 none (Or.inl rfl)
  · exact (auto_cast_to_sql_frame (fun _ => none) (fun t => t) (fun _ => none)
      [("x", [some ['1'], none])]).2.2 [("y", ("integer", "int4"))] 0 (by decide) (by decide)


/-! ## More catalog lemmas (append / remove / statement specs) -/

theorem lookupTable_append_left (st l : DBState) (n : String) (t : Table)
    (h : lookupTable st n = some t) : lookupTable (st ++ l) n = some t := by
  induction st with
  | nil => cases h
  | cons p rest ih =>
    by_cases hp : p.1 = n
    · simp only [lookupTable, if_pos hp] at h ⊢
      exact h
    · simp only [lookupTable, if_neg hp] at h ⊢
      exact ih h

theorem lookupTable_append_right (st l : DBState) (n : String)
    (h : lookupTable st n = none) : lookupTable (st ++ l) n = lookupTable l n := by
  induction st with
  | nil => rfl
  | cons p rest ih =>
    by_cases hp : p.1 = n
    · simp only [lookupTable, if_pos hp] at h
      cases h
    · simp only [lookupTable, if_neg hp] at h ⊢
      exact ih h

theorem lookupTable_remove_self (st : DBState) (n : String) :
    lookupTable (removeTable st n) n = none := by
  induction st with
  | nil => rfl
  | cons p rest ih =>
    by_cases hp : p.1 = n
    · simp only [removeTable, if_pos hp]
      exact ih
    · simp only [removeTable, if_neg hp, lookupTable, if_neg hp]
      exact ih

theorem lookupTable_remove_ne (st : DBState) (n m : String) (h : m ≠ n) :
    lookupTable (removeTable st n) m = lookupTable st m := by
  induction st with
  | nil => rfl
  | cons p rest ih =>
    by_cases hp : p.1 = n
    · have hpm : ¬(p.1 = m) := by
        rw [hp]
        exact fun e => h e.symm
      simp only [removeTable, if_pos hp, lookupTable, if_neg hpm]
      exact ih
    · by_cases hm : p.1 = m
      · simp only [removeTable, if_neg hp, lookupTable, if_pos hm]
      · simp only [removeTable, if_neg hp, lookupTable, if_neg hm]
        exact ih

theorem createTable_spec (st st' : DBState) (n : String) (t : Table)
    (h : createTable st n t = some st') :
    hasTable st n = false ∧ st' = st ++ [(n, t)] := by
  unfold createTable at h
  by_cases he : hasTable st n = true
  · rw [if_pos he] at h
    cases h
  · rw [Bool.not_eq_true] at he
    rw [if_neg (by rw [he]; exact Bool.false_ne_true)] at h
    injection h with h
    exact ⟨he, h.symm⟩

theorem createTableLike_spec (st st' : DBState) (temp target : String)
    (h : createTableLike st temp target = some st') :
    ∃ t, lookupTable st target = some t ∧ hasTable st temp = false ∧
      st' = st ++ [(temp, ⟨t.cols, []⟩)] := by
  unfold createTableLike at h
  cases hl : lookupTable st target with
  | none => rw [hl] at h; cases h
  | some t =>
    rw [hl] at h
    obtain ⟨h1, h2⟩ := createTable_spec st st' temp _ h
    exact ⟨t, rfl, h1, h2⟩

theorem insertDf_spec (st st' : DBState) (n : String) (df : DataFrame)
    (h : insertDf st n df = some st') :
    ∃ t, lookupTable st n = some t ∧
      (∀ c ∈ df.cols.map Prod.fst, c ∈ t.cols.map Prod.fst) ∧
      (∀ r ∈ df.rows, r.length = df.cols.length) ∧
      st' = updateTable st n
        ⟨t.cols, t.rows ++ df.rows.map (alignRow t.cols (df.cols.map Prod.fst))⟩ := by
  unfold insertDf at h
  cases hl : lookupTable st n with
  | none => rw [hl] at h; cases h
  | some t =>
    rw [hl] at h
    have h' : (if (∀ c ∈ df.cols.map Prod.fst, c ∈ t.cols.map Prod.fst) ∧
        (∀ r ∈ df.rows, r.length = df.cols.length) then
        some (updateTable st n
          ⟨t.cols, t.rows ++ df.rows.map (alignRow t.cols (df.cols.map Prod.fst))⟩)
      else none) = some st' := h
    by_cases hg : (∀ c ∈ df.cols.map Prod.fst, c ∈ t.cols.map Prod.fst) ∧
        (∀ r ∈ df.rows, r.length = df.cols.length)
    · rw [if_pos hg] at h'
      injection h' with h'
      exact ⟨t, rfl, hg.1, hg.2, h'.symm⟩
    · rw [if_neg hg] at h'
      cases h' 

theorem renameTable_spec (st st' : DBState) (old new : String)
    (h : renameTable st old new = some st') :
    ∃ t, lookupTable st old = some t ∧ hasTable st new = false ∧
      st' = removeTable st old ++ [(new, t)] := by
  unfold renameTable at h
  cases hl : lookupTable st old with
  | none => rw [hl] at h; cases h
  | some t =>
    rw [hl] at h
    have h' : (if hasTable st new = true then none
        else some (removeTable st old ++ [(new, t)])) = some st' := h
    by_cases he : hasTable st new = true
    · rw [if_pos he] at h'
      cases h'
    · rw [if_neg he] at h'
      rw [Bool.not_eq_true] at he
      injection h' with h'
      exact ⟨t, rfl, he, h'.symm⟩

theorem dropTable_spec (st st' : DBState) (n : String)
    (h : dropTable st n = some st') :
    hasTable st n = true ∧ st' = removeTable st n := by
  unfold dropTable at h
  by_cases he : hasTable st n = true
  · rw [if_pos he] at h
    injection h with h
    exact ⟨he, h.symm⟩
  · rw [if_neg he] at h
    cases h

/-- The composite rename/drop statement promotes the shadow table to
the destination's name. -/
theorem swapOp_dest (st st3 : DBState) (dest temp old : String) (tt : Table)
    (htemp : lookupTable st temp = some tt) (hne : temp ≠ dest)
    (h : swapOp st dest temp old = some st3) :
    lookupTable st3 dest = some tt := by
  unfold swapOp at h
  cases h1 : renameTable st dest old with
  | none => rw [h1] at h; cases h
  | some st1 =>
    rw [h1] at h
    obtain ⟨td, hld, hno, hst1⟩ := renameTable_spec st st1 dest old h1
    have hdo : dest ≠ old := by
      intro he
      rw [he] at hld
      unfold hasTable at hno
      rw [hld] at hno
      cases hno
    have hb : ((renameTable st1 temp dest).bind fun st2 => dropTable st2 old) = some st3 := h
    cases h2 : renameTable st1 temp dest with
    | none => rw [h2] at hb; cases hb
    | some st2 =>
      rw [h2] at hb
      have h : dropTable st2 old = some st3 := hb
      obtain ⟨tt', hlt', hnd, hst2⟩ := renameTable_spec st1 st2 temp dest h2
      have htemp1 : lookupTable st1 temp = some tt := by
        rw [hst1]
        rw [lookupTable_append_left _ _ _ tt]
        rw [lookupTable_remove_ne st dest temp hne]
        exact htemp
      rw [htemp1] at hlt'
      injection hlt' with hlt'
      subst hlt'
      obtain ⟨hdrop1, hst3⟩ := dropTable_spec st2 st3 old h
      rw [hst3, lookupTable_remove_ne _ _ _ hdo, hst2]
      rw [lookupTable_append_right]
      · simp [lookupTable]
      · rw [lookupTable_remove_ne _ _ _ (Ne.symm hne)]
        · rw [hst1]
          rw [lookupTable_append_right _ _ _ (lookupTable_remove_self st dest)]
          simp [lookupTable, hdo.symm]


/-! ## Row alignment and projection -/


lemma idxOfName_spec (l : List String) (n : String) (hmem : n ∈ l) :
    ∃ j, idxOfName l n = some j ∧ j < l.length ∧ l.getD j "" = n := by
  induction l with
  | nil => cases hmem
  | cons x xs ih =>
    by_cases hx : x = n
    · exact ⟨0, by simp [idxOfName, hx], by simp, by simp [hx]⟩
    · have hmem' : n ∈ xs := by
        rcases List.mem_cons.mp hmem with h | h
        · exact absurd h.symm hx
        · exact h
      obtain ⟨j, h1, h2, h3⟩ := ih hmem'
      refine ⟨j + 1, ?_, by simpa using h2, by simpa using h3⟩
      simp [idxOfName, hx, h1]

lemma idxOfName_getD_self (l : List String) (hnd : l.Nodup) (k : ℕ) (hk : k < l.length) :
    idxOfName l (l.getD k "") = some k := by
  induction l generalizing k with
  | nil => cases hk
  | cons x xs ih =>
    cases k with
    | zero => simp [idxOfName]
    | succ k =>
      have hk' : k < xs.length := by simpa using hk
      have hmem : xs.getD k "" ∈ xs := by
        rw [List.getD_eq_getElem?_getD, List.getElem?_eq_getElem hk']
        exact List.getElem_mem _
      have hx : ¬(x = xs.getD k "") := by
        intro he
        exact (List.nodup_cons.mp hnd).1 (he ▸ hmem)
      have hgd : (x :: xs).getD (k + 1) "" = xs.getD k "" := by
        rw [List.getD_eq_getElem?_getD, List.getElem?_cons_succ, ← List.getD_eq_getElem?_getD]
      rw [hgd]
      show (if x = xs.getD k "" then some 0
            else (idxOfName xs (xs.getD k "")).map (· + 1)) = some (k + 1)
      rw [if_neg hx, ih (List.nodup_cons.mp hnd).2 k hk']
      rfl

lemma projectRow_alignRow (tcols : List (String × PgType)) (names : List String)
    (r : List Cell) (hnd : names.Nodup)
    (hsub : ∀ n ∈ names, n ∈ tcols.map Prod.fst)
    (hlen : r.length = names.length) :
    projectRow tcols names (alignRow tcols names r) = r := by
  apply List.ext_getElem
  · simp [projectRow, hlen]
  · intro k h1 h2
    have hk : k < names.length := by simpa [projectRow] using h1
    have hkr : k < r.length := by rw [hlen]; exact hk
    have hproj : (projectRow tcols names (alignRow tcols names r))[k] =
        (match idxOfName (tcols.map Prod.fst) (names.getD k "") with
         | some i => (alignRow tcols names r).getD i Cell.null
         | none => Cell.null) := by
      unfold projectRow
      rw [List.getElem_map]
      rw [List.getD_eq_getElem?_getD, List.getElem?_eq_getElem hk]
      rfl
    rw [hproj]
    have hmemk : names.getD k "" ∈ names := by
      rw [List.getD_eq_getElem?_getD, List.getElem?_eq_getElem hk]
      exact List.getElem_mem _
    obtain ⟨i, hidx, hilt, hget⟩ := idxOfName_spec (tcols.map Prod.fst) _ (hsub _ hmemk)
    rw [hidx]
    have hit : i < tcols.length := by simpa using hilt
    show (alignRow tcols names r).getD i Cell.null = r[k]
    have halign : (alignRow tcols names r).getD i Cell.null =
        (match idxOfName names (tcols.getD i ("", PgType.text)).1 with
         | some j => r.getD j Cell.null
         | none => Cell.null) := by
      unfold alignRow
      rw [getD_map_of_lt _ tcols i Cell.null ("", PgType.text) hit]
    have hgetname : (tcols.getD i ("", PgType.text)).1 = names.getD k "" := by
      have hmm : (tcols.map Prod.fst).getD i "" = (tcols.getD i ("", PgType.text)).1 :=
        getD_map_of_lt Prod.fst tcols i "" ("", PgType.text) hit
      rw [← hmm, hget]
    rw [halign, hgetname, idxOfName_getD_self names hnd k hk]
    show r.getD k Cell.null = r[k]
    rw [List.getD_eq_getElem?_getD, List.getElem?_eq_getElem hkr]
    rfl


/-! ## C2: a successful save replaces the destination's rows exactly -/

/-- When the full swap sequence of `_execute_atomic_swap` succeeds, the
destination table ends up holding exactly the DataFrame's rows, aligned
to the shadow table's column list. -/
lemma atomic_swap_success (tx tx2 : Tx) (dest temp : String) (df : DataFrame)
    (hwfe : df.cols = [] → df.rows = [])
    (h : _execute_atomic_swap tx dest temp df = (tx2, false)) :
    tx2.aborted = false ∧
    ∃ C : List (String × PgType),
      lookupTable tx2.db dest = some ⟨C, df.rows.map (alignRow C (df.cols.map Prod.fst))⟩ ∧
      (df.rows ≠ [] →
        (∀ n ∈ df.cols.map Prod.fst, n ∈ C.map Prod.fst) ∧
        (∀ r ∈ df.rows, r.length = df.cols.length)) := by
  unfold _execute_atomic_swap at h
  rcases hA : execStmt tx (fun db => createTableLike db temp dest) with ⟨txA, rA⟩
  rw [hA] at h
  cases rA with
  | true => cases h
  | false =>
    obtain ⟨-, -, -, hopA, -⟩ := execStmt_false tx txA _ hA
    obtain ⟨t0, hld, hnt, hdbA⟩ := createTableLike_spec tx.db txA.db temp dest hopA
    have htempA : lookupTable txA.db temp = some ⟨t0.cols, []⟩ := by
      rw [hdbA, lookupTable_append_right]
      · simp [lookupTable]
      · unfold hasTable at hnt
        cases hl : lookupTable tx.db temp with
        | none => rfl
        | some u => rw [hl] at hnt; cases hnt
    have hnedest : temp ≠ dest := by
      intro he
      unfold hasTable at hnt
      rw [he, hld] at hnt
      cases hnt
    have h2 : (match insertDataFrame txA temp df with
               | (txi, true) => (txi, true)
               | (txi, false) => execStmt txi (fun db => swapOp db dest temp ("old_" ++ temp)))
        = (tx2, false) := h
    rcases hB : insertDataFrame txA temp df with ⟨txB, rB⟩
    rw [hB] at h2
    cases rB with
    | true => cases h2
    | false =>
      have h := h2
      obtain ⟨-, -, -, hopC, -⟩ := execStmt_false txB tx2 _ h
      have haborted : tx2.aborted = false := (execStmt_false txB tx2 _ h).2.1
      by_cases hemp : df.isEmptyDf = true
      · have hrows : df.rows = [] := by
          unfold DataFrame.isEmptyDf at hemp
          rcases Bool.or_eq_true_iff.mp hemp with h1 | h1
          · exact List.isEmpty_iff.mp h1
          · exact hwfe (List.isEmpty_iff.mp h1)
        have hBtx : txB = txA := by
          unfold insertDataFrame at hB
          rw [if_pos hemp] at hB
          injection hB with h1 h2
          exact h1.symm
        subst hBtx
        refine ⟨haborted, t0.cols, ?_, fun hne => absurd hrows hne⟩
        rw [hrows]
        simp only [List.map_nil]
        exact swapOp_dest txB.db tx2.db dest temp ("old_" ++ temp) _ htempA hnedest hopC
      · have hBeq : insertDataFrame txA temp df
            = execStmt txA (fun db => insertDf db temp df) := by
          unfold insertDataFrame
          rw [if_neg hemp]
        rw [hBeq] at hB
        obtain ⟨-, -, -, hopB, -⟩ := execStmt_false txA txB _ hB
        obtain ⟨t1, hlt1, hnames, hwidths, hdbB⟩ := insertDf_spec txA.db txB.db temp df hopB
        rw [htempA] at hlt1
        injection hlt1 with hlt1
        subst hlt1
        have htempB : lookupTable txB.db temp
            = some ⟨t0.cols, df.rows.map (alignRow t0.cols (df.cols.map Prod.fst))⟩ := by
          rw [hdbB]
          have := lookupTable_update_self txA.db temp
            ⟨t0.cols, [] ++ df.rows.map (alignRow t0.cols (df.cols.map Prod.fst))⟩
            (by rw [htempA]; rfl)
          simpa using this
        refine ⟨haborted, t0.cols, ?_, fun _ => ⟨hnames, hwidths⟩⟩
        exact swapOp_dest txB.db tx2.db dest temp ("old_" ++ temp) _ htempB hnedest hopC

/-- **C2**.  For every dataset, destination, prior state and fault
pattern: if `save_data` reports success then reading the destination
back yields exactly the dataset's rows — row for row, aligned to the
destination's (possibly wider) column list, with the projection onto
the dataset's own columns recovering the dataset verbatim.  The prior
contents of the destination are gone entirely: the row count equals
the dataset's row count, never a union with the old rows. -/
theorem save_data_success_roundtrip (faults : List Bool) (df : DataFrame)
    (dest temp : String) (st : DBState) (hwf : df.wf)
    (h : (save_data faults df dest temp st).1 = true) :
    ∃ t : Table,
      lookupTable (save_data faults df dest temp st).2 dest = some t ∧
      read_data (save_data faults df dest temp st).2 dest
        = some (df.rows.map (alignRow t.cols (df.cols.map Prod.fst))) ∧
      t.rows = df.rows.map (alignRow t.cols (df.cols.map Prod.fst)) ∧
      t.rows.length = df.rows.length ∧
      t.rows.map (projectRow t.cols (df.cols.map Prod.fst)) = df.rows := by
  obtain ⟨hnd, hlen, hemp⟩ := hwf
  rcases hc : _create_or_update_table ⟨st, st, false, faults⟩ dest df with ⟨tx1, r1⟩
  cases r1 with
  | true =>
    have hv : save_data faults df dest temp st = (false, st) := by
      unfold save_data
      rw [hc]
    rw [hv] at h
    cases h
  | false =>
    rcases hs : _execute_atomic_swap tx1 dest temp df with ⟨tx2, r2⟩
    cases r2 with
    | true =>
      have hv : save_data faults df dest temp st = (false, st) := by
        unfold save_data
        simp only [hc, hs]
      rw [hv] at h
      cases h
    | false =>
      have hv : save_data faults df dest temp st = (true, txCommit tx2) := by
        unfold save_data
        simp only [hc, hs]
      obtain ⟨hab2, C, hlook, hrest⟩ := atomic_swap_success tx1 tx2 dest temp df hemp hs
      have hcommit : txCommit tx2 = tx2.db := by
        unfold txCommit
        rw [hab2]
        rfl
      refine ⟨⟨C, df.rows.map (alignRow C (df.cols.map Prod.fst))⟩, ?_, ?_, rfl, ?_, ?_⟩
      · rw [hv, hcommit]
        exact hlook
      · rw [hv, hcommit]
        unfold read_data
        rw [hlook]
        rfl
      · simp
      · by_cases hre : df.rows = []
        · simp [hre]
        · obtain ⟨hnames, hwidths⟩ := hrest hre
          show (df.rows.map (alignRow C (df.cols.map Prod.fst))).map
            (projectRow C (df.cols.map Prod.fst)) = df.rows
          rw [List.map_map]
          have hid : ∀ r ∈ df.rows,
              (projectRow C (df.cols.map Prod.fst) ∘ alignRow C (df.cols.map Prod.fst)) r
                = id r := by
            intro r hr
            show projectRow C (df.cols.map Prod.fst) (alignRow C (df.cols.map Prod.fst) r) = r
            exact projectRow_alignRow C (df.cols.map Prod.fst) r hnd hnames
              (by rw [hlen r hr]; simp)
          rw [map_congr_fn _ _ df.rows hid, List.map_id]

/-- Witness for C2: saving a two-column dataset over a one-column
table succeeds, and reading back yields exactly the dataset's row. -/
theorem save_data_success_roundtrip_witness :
    ∃ t : Table,
      lookupTable (save_data [] ⟨[("a", .object), ("b", .int64)],
          [[Cell.text ['y'], Cell.intg 5]]⟩ "t" "tmp"
          [("t", ⟨[("a", .text)], [[Cell.text ['x']]]⟩)]).2 "t" = some t ∧
      read_data (save_data [] ⟨[("a", .object), ("b", .int64)],
          [[Cell.text ['y'], Cell.intg 5]]⟩ "t" "tmp"
          [("t", ⟨[("a", .text)], [[Cell.text ['x']]]⟩)]).2 "t"
        = some ([[Cell.text ['y'], Cell.intg 5]].map
            (alignRow t.cols ["a", "b"])) ∧
      t.rows = [[Cell.text ['y'], Cell.intg 5]].map (alignRow t.cols ["a", "b"]) ∧
      t.rows.length = 1 ∧
      t.rows.map (projectRow t.cols ["a", "b"]) = [[Cell.text ['y'], Cell.intg 5]] :=
  save_data_success_roundtrip [] ⟨[("a", .object), ("b", .int64)],
    [[Cell.text ['y'], Cell.intg 5]]⟩ "t" "tmp"
    [("t", ⟨[("a", .text)], [[Cell.text ['x']]]⟩)]
    ⟨by decide, by decide, by decide⟩ rfl


/-! ## C3: the backup table is append-only -/


lemma backupName_ne_self (s : String) : backupName s ≠ s := by
  intro h
  have hl := congrArg String.length h
  rw [backupName, String.length_append] at hl
  have h7 : ("_backup" : String).length = 7 := rfl
  omega

lemma lookupTable_append_singleton_ne (st : DBState) (n m : String) (t : Table)
    (h : m ≠ n) : lookupTable (st ++ [(n, t)]) m = lookupTable st m := by
  cases hl : lookupTable st m with
  | some u => exact lookupTable_append_left st _ m u hl
  | none =>
    rw [lookupTable_append_right st _ m hl]
    show (if n = m then some t else lookupTable [] m) = none
    rw [if_neg (Ne.symm h)]
    rfl

lemma lookupTable_setTableRows_ne (st : DBState) (n m : String) (rows : List (List Cell))
    (h : m ≠ n) : lookupTable (setTableRows st n rows) m = lookupTable st m := by
  induction st with
  | nil => rfl
  | cons p rest ih =>
    by_cases hp : p.1 = n
    · have hpm : ¬(p.1 = m) := by
        rw [hp]
        exact fun e => h e.symm
      simp only [setTableRows, List.map_cons, if_pos (by simp [hp] : (p.1 == n) = true),
        lookupTable, if_neg hpm]
      exact ih
    · by_cases hm : p.1 = m
      · simp [setTableRows, lookupTable, hp, hm, h]
      · simp only [setTableRows, List.map_cons, if_neg (by simp [hp] : ¬((p.1 == n) = true)),
          lookupTable, if_neg hm]
        exact ih

lemma lookupTable_setTableRows_self (st : DBState) (n : String) (rows : List (List Cell))
    (t : Table) (h : lookupTable st n = some t) :
    lookupTable (setTableRows st n rows) n = some ⟨t.cols, rows⟩ := by
  induction st with
  | nil => cases h
  | cons p rest ih =>
    by_cases hp : p.1 = n
    · simp only [lookupTable, if_pos hp] at h
      injection h with h
      subst h
      simp [setTableRows, lookupTable, hp]
    · simp only [lookupTable, if_neg hp] at h
      simp only [setTableRows, List.map_cons, if_neg (by simp [hp] : ¬((p.1 == n) = true)),
        lookupTable, if_neg hp]
      exact ih h

lemma lookupTable_setTableRows_none (st : DBState) (n : String) (rows : List (List Cell))
    (h : lookupTable st n = none) :
    lookupTable (setTableRows st n rows) n = none := by
  induction st with
  | nil => rfl
  | cons p rest ih =>
    by_cases hp : p.1 = n
    · simp only [lookupTable, if_pos hp] at h
      cases h
    · simp only [lookupTable, if_neg hp] at h
      simp only [setTableRows, List.map_cons, if_neg (by simp [hp] : ¬((p.1 == n) = true)),
        lookupTable, if_neg hp]
      exact ih h

lemma hasTable_setTableRows (st : DBState) (n m : String) (rows : List (List Cell)) :
    hasTable (setTableRows st n rows) m = hasTable st m := by
  by_cases h : m = n
  · subst h
    unfold hasTable
    cases hl : lookupTable st m with
    | none => rw [lookupTable_setTableRows_none st m rows hl]
    | some t =>
      rw [lookupTable_setTableRows_self st m rows t hl]
      rfl
  · unfold hasTable
    rw [lookupTable_setTableRows_ne st n m rows h]

/-- Unpacking a successful append-only `INSERT INTO … SELECT` statement
body. -/
lemma backupInsertOp_eq (db db' : DBState) (c : ClockReading) (t : String)
    (h : (match lookupTable db t, lookupTable db (backupName t) with
      | some s, some b =>
        if b.cols.length = s.cols.length + 3 then
          some (updateTable db (backupName t) ⟨b.cols, b.rows ++ s.rows.map (stampRow c)⟩)
        else none
      | _, _ => none) = some db') :
    ∃ s b, lookupTable db t = some s ∧ lookupTable db (backupName t) = some b ∧
      b.cols.length = s.cols.length + 3 ∧
      db' = updateTable db (backupName t) ⟨b.cols, b.rows ++ s.rows.map (stampRow c)⟩ := by
  rcases hs : lookupTable db t with _ | s <;>
    rcases hb : lookupTable db (backupName t) with _ | b <;>
    rw [hs, hb] at h
  · exact Option.noConfusion h
  · exact Option.noConfusion h
  · exact Option.noConfusion h
  case some.some =>
    by_cases har : b.cols.length = s.cols.length + 3
    · have h' : (if b.cols.length = s.cols.length + 3 then
          some (updateTable db (backupName t) ⟨b.cols, b.rows ++ s.rows.map (stampRow c)⟩)
        else none) = some db' := h
      rw [if_pos har] at h'
      injection h' with h'
      exact ⟨s, b, rfl, rfl, har, h'.symm⟩
    · have h' : (if b.cols.length = s.cols.length + 3 then
          some (updateTable db (backupName t) ⟨b.cols, b.rows ++ s.rows.map (stampRow c)⟩)
        else none) = some db' := h
      rw [if_neg har] at h'
      exact Option.noConfusion h'

/-- Unpacking a successful `CREATE TABLE backup (LIKE source …)`
statement body. -/
lemma backupCreateOp_eq (db db' : DBState) (t : String)
    (h : (match lookupTable db t with
      | none => none
      | some t0 => createTable db (backupName t) ⟨t0.cols ++ metaCols, []⟩) = some db') :
    ∃ t0, lookupTable db t = some t0 ∧
      createTable db (backupName t) ⟨t0.cols ++ metaCols, []⟩ = some db' := by
  rcases hs : lookupTable db t with _ | t0 <;> rw [hs] at h
  · exact Option.noConfusion h
  · exact ⟨t0, rfl, h⟩

/-- One fully successful ensure-and-insert backup step: the backup
table gains exactly the stamped snapshot of the source's current rows,
appended after its previous rows; nothing else in the namespace is
touched. -/
lemma backup_step_success (c : ClockReading) (t : String) (tx tx1 tx2 : Tx)
    (h1 : _create_backup_table_if_not_exists tx t = (tx1, false))
    (h2 : _execute_backup_operation tx1 c t = (tx2, false)) :
    tx2.aborted = false ∧ tx2.base = tx.base ∧
    bRows tx2.db t = bRows tx.db t ++ (srcRows tx.db t).map (stampRow c) ∧
    (∀ m, m ≠ backupName t → lookupTable tx2.db m = lookupTable tx.db m) := by
  obtain ⟨-, hab2, hbase2, hop2, -⟩ := execStmt_false tx1 tx2 _ h2
  obtain ⟨s, b, hls, hlb, har, hdbeq⟩ := backupInsertOp_eq tx1.db tx2.db c t hop2
  have hlb2 : lookupTable tx2.db (backupName t)
      = some ⟨b.cols, b.rows ++ s.rows.map (stampRow c)⟩ := by
    rw [hdbeq]
    exact lookupTable_update_self tx1.db (backupName t) _ (by rw [hlb]; rfl)
  have hframe2 : ∀ m, m ≠ backupName t → lookupTable tx2.db m = lookupTable tx1.db m := by
    intro m hm
    rw [hdbeq]
    exact lookupTable_update_ne tx1.db (backupName t) m _ hm
  unfold _create_backup_table_if_not_exists at h1
  rcases hq : tableExistsTx tx (backupName t) with ⟨txe, e⟩
  rw [hq] at h1
  obtain ⟨hqb, hqd, -⟩ := tableExistsTx_spec tx (backupName t)
  rw [hq] at hqb hqd
  cases e with
  | true =>
    have h1' : ((txe, false) : Tx × Bool) = (tx1, false) := h1
    injection h1' with h1a h1b
    subst h1a
    refine ⟨hab2, by rw [hbase2, hqb], ?_, ?_⟩
    · unfold bRows srcRows
      rw [hlb2]
      rw [hqd] at hlb hls
      rw [hlb, hls]
      rfl
    · intro m hm
      rw [hframe2 m hm, hqd]
  | false =>
    have h1' : (match execStmt txe (fun db =>
        match lookupTable db t with
        | none => none
        | some t0 => createTable db (backupName t) ⟨t0.cols ++ metaCols, []⟩) with
      | (tx2, true) => (tx2, true)
      | (tx2, false) =>
        match execStmt tx2 (fun db => some db) with
        | (tx3, true) => (tx3, true)
        | (tx3, false) => execStmt tx3 (fun db => some db)) = (tx1, false) := h1
    rcases hcr : execStmt txe (fun db =>
        match lookupTable db t with
        | none => none
        | some t0 => createTable db (backupName t) ⟨t0.cols ++ metaCols, []⟩) with ⟨txc, rc⟩
    rw [hcr] at h1'
    cases rc with
    | true =>
      have h1'' : ((txc, true) : Tx × Bool) = (tx1, false) := h1'
      injection h1'' with h1a h1b
      exact Bool.noConfusion h1b
    | false =>
      obtain ⟨-, -, hcb, hopc, -⟩ := execStmt_false txe txc _ hcr
      obtain ⟨s0, hls0, hcreate⟩ := backupCreateOp_eq txe.db txc.db t hopc
      obtain ⟨hnob, hdbc⟩ := createTable_spec txe.db txc.db (backupName t) _ hcreate
      have h1'' : (match execStmt txc (fun db => some db) with
        | (tx3, true) => (tx3, true)
        | (tx3, false) => execStmt tx3 (fun db => some db)) = (tx1, false) := h1'
      rcases hi1 : execStmt txc (fun db => some db) with ⟨txd, rd⟩
      rw [hi1] at h1''
      cases rd with
      | true =>
        have h1''' : ((txd, true) : Tx × Bool) = (tx1, false) := h1''
        injection h1''' with h1a h1b
        exact Bool.noConfusion h1b
      | false =>
        obtain ⟨-, -, hdb1, hopd, -⟩ := execStmt_false txc txd _ hi1
        have hopd' : some txc.db = some txd.db := hopd
        injection hopd' with hopd'
        have h1''' : execStmt txd (fun db => some db) = (tx1, false) := h1''
        obtain ⟨-, -, hdbf, hopf, -⟩ := execStmt_false txd tx1 _ h1'''
        have hopf' : some txd.db = some tx1.db := hopf
        injection hopf' with hopf'
        have hdb1eq : tx1.db = txc.db := by rw [← hopf', ← hopd']
        refine ⟨hab2, by rw [hbase2, hdbf, hdb1, hcb, hqb], ?_, ?_⟩
        · unfold bRows srcRows
          rw [hlb2]
          have hlbe : lookupTable txe.db (backupName t) = none := by
            unfold hasTable at hnob
            cases hx : lookupTable txe.db (backupName t) with
            | none => rfl
            | some u =>
              rw [hx] at hnob
              cases hnob
          have hlb1 : lookupTable tx1.db (backupName t)
              = some ⟨s0.cols ++ metaCols, []⟩ := by
            rw [hdb1eq, hdbc, lookupTable_append_right _ _ _ hlbe]
            simp [lookupTable]
          rw [hlb1] at hlb
          injection hlb with hlb
          subst hlb
          have hls1 : lookupTable tx1.db t = some s0 := by
            rw [hdb1eq, hdbc,
              lookupTable_append_singleton_ne _ _ _ _ (Ne.symm (backupName_ne_self t))]
            exact hls0
          rw [hls1] at hls
          injection hls with hls
          subst hls
          rw [hqd] at hlbe hls0
          rw [hlbe, hls0]
          rfl
        · intro m hm
          rw [hframe2 m hm, hdb1eq, hdbc,
            lookupTable_append_singleton_ne _ _ _ _ hm, hqd]


/-- A successful `backup_data` call: its committed state holds the old
backup rows followed by the stamped snapshot of the source's rows at
call time, every other table is untouched, and the source did exist. -/
lemma backup_data_success (faults : List Bool) (c : ClockReading) (source : String)
    (st st' : DBState) (r : Option String)
    (h : backup_data faults c source st = ((true, r), st')) :
    hasTable st source = true ∧
    bRows st' source = bRows st source ++ (srcRows st source).map (stampRow c) ∧
    ∀ m, m ≠ backupName source → lookupTable st' m = lookupTable st m := by
  unfold backup_data at h
  rcases hq : tableExistsTx ⟨st, st, false, faults⟩ source with ⟨txe, e⟩
  rw [hq] at h
  obtain ⟨hqb, hqd, hqt⟩ := tableExistsTx_spec ⟨st, st, false, faults⟩ source
  rw [hq] at hqb hqd hqt
  cases e with
  | false =>
    have h' : (((false, some (notFoundMsg source)) : Bool × Option String), st)
        = ((true, r), st') := h
    injection h' with ha hb
    injection ha with ha1 ha2
    exact Bool.noConfusion ha1
  | true =>
    obtain ⟨-, -, htab⟩ := hqt rfl
    have h' : (match _create_backup_table_if_not_exists txe source with
      | (_, true) => ((false, some stmtFailMsg), st)
      | (tx2, false) =>
        match _execute_backup_operation tx2 c source with
        | (_, true) => ((false, some stmtFailMsg), st)
        | (tx3, false) => ((true, none), txCommit tx3)) = ((true, r), st') := h
    rcases h1 : _create_backup_table_if_not_exists txe source with ⟨tx2, r1⟩
    rw [h1] at h'
    cases r1 with
    | true =>
      have h'' : (((false, some stmtFailMsg) : Bool × Option String), st)
          = ((true, r), st') := h'
      injection h'' with ha hb
      injection ha with ha1 ha2
      exact Bool.noConfusion ha1
    | false =>
      have h'' : (match _execute_backup_operation tx2 c source with
        | (_, true) => ((false, some stmtFailMsg), st)
        | (tx3, false) => ((true, none), txCommit tx3)) = ((true, r), st') := h'
      rcases h2 : _execute_backup_operation tx2 c source with ⟨tx3, r2⟩
      rw [h2] at h''
      cases r2 with
      | true =>
        have h''' : (((false, some stmtFailMsg) : Bool × Option String), st)
            = ((true, r), st') := h''
        injection h''' with ha hb
        injection ha with ha1 ha2
        exact Bool.noConfusion ha1
      | false =>
        have h''' : (((true, none) : Bool × Option String), txCommit tx3)
            = ((true, r), st') := h''
        injection h''' with ha hb
        obtain ⟨hab3, hbase3, hrows, hframe⟩ := backup_step_success c source txe tx2 tx3 h1 h2
        have hst' : st' = tx3.db := by
          rw [← hb, txCommit, if_neg (by rw [hab3]; exact Bool.false_ne_true)]
        subst hst'
        have hqd' : txe.db = st := hqd
        have htab' : hasTable st source = true := htab
        rw [hqd'] at hrows hframe
        exact ⟨htab', hrows, hframe⟩

/-- The append-only induction over a whole run: when every call
succeeds, the final backup table holds the initial backup rows followed
by, in order, each call's snapshot stamped with that call's clock. -/
lemma runBackups_spec (source : String) (calls : List (ClockReading × List (List Cell))) :
    ∀ st : DBState, (runBackups source st calls).2 = true →
      bRows (runBackups source st calls).1 source =
        bRows st source ++ (calls.map (fun p => p.2.map (stampRow p.1))).flatten := by
  induction calls with
  | nil =>
    intro st h
    simp [runBackups]
  | cons p rest ih =>
    intro st h
    rcases p with ⟨c, snap⟩
    rcases hbd : backup_data [] c source (setTableRows st source snap) with ⟨⟨b, r⟩, st2⟩
    rcases hrun : runBackups source st2 rest with ⟨stN, ok⟩
    have hstep : runBackups source st ((c, snap) :: rest)
        = (match backup_data [] c source (setTableRows st source snap) with
          | (res, st2) =>
            match runBackups source st2 rest with
            | (stN, ok) => (stN, res.1 && ok)) := rfl
    rw [hbd] at hstep
    have hstep2 : runBackups source st ((c, snap) :: rest)
        = (match runBackups source st2 rest with
          | (stN2, ok2) => (stN2, b && ok2)) := hstep
    rw [hrun] at hstep2
    have hstep3 : runBackups source st ((c, snap) :: rest) = (stN, b && ok) := hstep2
    rw [hstep3] at h ⊢
    have hb : b = true := by
      cases b with
      | true => rfl
      | false => exact Bool.noConfusion h
    have hok : ok = true := by
      cases ok with
      | true => rfl
      | false =>
        rw [Bool.and_false] at h
        exact Bool.noConfusion h
    subst hb
    obtain ⟨htab, hrows, hframe⟩ := backup_data_success [] c source _ st2 r hbd
    rw [hasTable_setTableRows] at htab
    have hsrc : ∃ t, lookupTable st source = some t := by
      unfold hasTable at htab
      cases hx : lookupTable st source with
      | none =>
        rw [hx] at htab
        exact Bool.noConfusion htab
      | some t => exact ⟨t, rfl⟩
    obtain ⟨t, hsrc⟩ := hsrc
    have hsnap : srcRows (setTableRows st source snap) source = snap := by
      unfold srcRows
      rw [lookupTable_setTableRows_self st source snap t hsrc]
      rfl
    have hbkeep : bRows (setTableRows st source snap) source = bRows st source := by
      unfold bRows
      rw [lookupTable_setTableRows_ne st source (backupName source) snap
        (backupName_ne_self source)]
    rw [hsnap, hbkeep] at hrows
    have hfin := ih st2 (by rw [hrun]; exact hok)
    rw [hrun] at hfin
    simp only [hfin, hrows, List.map_cons, List.flatten_cons, List.append_assoc]

/-- **C3**.  Append-only backups: over any run of `backup_one(source)`
invocations that all report success (the source refreshed to the i-th
snapshot before the i-th call), the backup table afterwards holds
exactly the initial backup rows followed by one stamped full-table
snapshot per call, in call order, each row carrying that call's
timestamp, year and ISO week columns; hence its row count is the
initial count plus the sum of the snapshot sizes, and every previously
present backup row is still there, unchanged, at its old index. -/
theorem backup_append_only (source : String) (st : DBState)
    (calls : List (ClockReading × List (List Cell)))
    (h : (runBackups source st calls).2 = true) :
    bRows (runBackups source st calls).1 source =
      bRows st source ++ (calls.map (fun p => p.2.map (stampRow p.1))).flatten ∧
    (bRows (runBackups source st calls).1 source).length =
      (bRows st source).length + (calls.map (fun p => p.2.length)).sum ∧
    ∀ i r0, i < (bRows st source).length →
      (bRows (runBackups source st calls).1 source).getD i r0 =
        (bRows st source).getD i r0 := by
  have hmain := runBackups_spec source calls st h
  refine ⟨hmain, ?_, ?_⟩
  · have hfun : (List.length ∘ fun p : ClockReading × List (List Cell) =>
        List.map (stampRow p.1) p.2)
        = fun p : ClockReading × List (List Cell) => p.2.length := by
      funext p
      simp
    rw [hmain, List.length_append, List.length_flatten, List.map_map, hfun]
  · intro i r0 hi
    rw [hmain]
    exact List.getD_append _ _ _ _ hi

/-- Witness for C3: two successful backups of `t` (snapshots of sizes
2 and 1) leave `t_backup` holding exactly the three stamped rows. -/
theorem backup_append_only_witness :
    ((runBackups "t"
        [("t", ⟨[("a", PgType.text)], []⟩)]
        [(⟨10, 2026, 41⟩, [[Cell.text ['x']], [Cell.text ['y']]]),
         (⟨20, 2026, 42⟩, [[Cell.text ['z']]])]).2 = true) ∧
    bRows (runBackups "t"
        [("t", ⟨[("a", PgType.text)], []⟩)]
        [(⟨10, 2026, 41⟩, [[Cell.text ['x']], [Cell.text ['y']]]),
         (⟨20, 2026, 42⟩, [[Cell.text ['z']]])]).1 "t" =
      [] ++ ([[stampRow ⟨10, 2026, 41⟩ [Cell.text ['x']],
               stampRow ⟨10, 2026, 41⟩ [Cell.text ['y']]],
              [stampRow ⟨20, 2026, 42⟩ [Cell.text ['z']]]]).flatten := by
  refine ⟨by decide, ?_⟩
  exact (backup_append_only "t"
    [("t", ⟨[("a", PgType.text)], []⟩)]
    [(⟨10, 2026, 41⟩, [[Cell.text ['x']], [Cell.text ['y']]]),
     (⟨20, 2026, 42⟩, [[Cell.text ['z']]])] (by decide)).1


/-! ## C5: `backup_all` and the shared transaction -/

lemma backupName_inj (a b : String) (h : backupName a = backupName b) : a = b := by
  unfold backupName at h
  have hd : a.data ++ "_backup".data = b.data ++ "_backup".data := by
    have hc := congrArg String.data h
    simpa [String.data_append] using hc
  have hab : a.data = b.data := List.append_cancel_right hd
  cases a
  cases b
  exact congrArg String.mk hab

lemma likeEndsBackup_backupName (s : String) : likeEndsBackup (backupName s) = true := by
  have htl : (s ++ "_backup").toList = s.toList ++ "_backup".toList := by
    simp [String.toList]
  show (decide (7 ≤ (s ++ "_backup").toList.length) &&
    decide ((s ++ "_backup").toList.drop ((s ++ "_backup").toList.length - 6)
      = "backup".toList)) = true
  rw [htl]
  have hlen : (s.toList ++ "_backup".toList).length = s.toList.length + 7 := by
    simp
  rw [hlen]
  have hdrop : (s.toList ++ "_backup".toList).drop (s.toList.length + 7 - 6)
      = "backup".toList := by
    have he : s.toList.length + 7 - 6 = s.toList.length + 1 := by omega
    rw [he, List.drop_append]
    rfl
  rw [hdrop]
  simp

lemma insertSorted_perm (x : String) (l : List String) :
    (insertSorted x l).Perm (x :: l) := by
  induction l with
  | nil => exact List.Perm.refl _
  | cons y ys ih =>
    unfold insertSorted
    cases h : strLe x y with
    | true => rw [if_pos rfl]
    | false =>
      rw [if_neg Bool.false_ne_true]
      exact ((ih.cons y).trans (List.Perm.swap x y ys))

lemma sortNames_perm (l : List String) : (sortNames l).Perm l := by
  induction l with
  | nil => exact List.Perm.refl _
  | cons x xs ih =>
    unfold sortNames
    exact (insertSorted_perm x (xs.foldr insertSorted [])).trans (ih.cons x)

lemma execStmt_aborted (tx : Tx) (op : DBState → Option DBState) (h : tx.aborted = true) :
    execStmt tx op = (tx, true) := by
  simp [execStmt, h]

lemma execQuery_aborted {α : Type} (tx : Tx) (q : DBState → α) (h : tx.aborted = true) :
    execQuery tx q = (tx, none) := by
  simp [execQuery, h]

lemma tableExistsTx_aborted (tx : Tx) (n : String) (h : tx.aborted = true) :
    tableExistsTx tx n = (tx, false) := by
  unfold tableExistsTx
  rw [execQuery_aborted tx _ h]

lemma ensure_aborted (tx : Tx) (t : String) (h : tx.aborted = true) :
    _create_backup_table_if_not_exists tx t = (tx, true) := by
  show (match tableExistsTx tx (backupName t) with
    | (txe, true) => (txe, false)
    | (txe, false) =>
      match execStmt txe (fun db =>
          match lookupTable db t with
          | none => none
          | some t0 => createTable db (backupName t) ⟨t0.cols ++ metaCols, []⟩) with
      | (tx2, true) => (tx2, true)
      | (tx2, false) =>
        match execStmt tx2 (fun db => some db) with
        | (tx3, true) => (tx3, true)
        | (tx3, false) => execStmt tx3 (fun db => some db)) = (tx, true)
  rw [tableExistsTx_aborted tx _ h]
  show (match execStmt tx (fun db =>
      match lookupTable db t with
      | none => none
      | some t0 => createTable db (backupName t) ⟨t0.cols ++ metaCols, []⟩) with
    | (tx2, true) => (tx2, true)
    | (tx2, false) =>
      match execStmt tx2 (fun db => some db) with
      | (tx3, true) => (tx3, true)
      | (tx3, false) => execStmt tx3 (fun db => some db)) = (tx, true)
  rw [execStmt_aborted tx _ h]

lemma backupAllLoop_aborted (c : ClockReading) (ts : List String) : ∀ tx : Tx,
    tx.aborted = true →
    backupAllLoop c tx ts = (tx, ts.map (fun t => (t, stmtFailMsg))) := by
  induction ts with
  | nil =>
    intro tx h
    rfl
  | cons t ts ih =>
    intro tx h
    have hstep : backupAllLoop c tx (t :: ts)
        = (match _create_backup_table_if_not_exists tx t with
          | (tx1, true) =>
            match backupAllLoop c tx1 ts with
            | (txr, errs) => (txr, (t, stmtFailMsg) :: errs)
          | (tx1, false) =>
            match _execute_backup_operation tx1 c t with
            | (tx2, true) =>
              match backupAllLoop c tx2 ts with
              | (txr, errs) => (txr, (t, stmtFailMsg) :: errs)
            | (tx2, false) => backupAllLoop c tx2 ts) := rfl
    rw [ensure_aborted tx t h] at hstep
    have hstep2 : backupAllLoop c tx (t :: ts)
        = (match backupAllLoop c tx ts with
          | (txr, errs) => (txr, (t, stmtFailMsg) :: errs)) := hstep
    rw [ih tx h] at hstep2
    exact hstep2


/-- Whatever the outcome, `_create_backup_table_if_not_exists` keeps the
commit base, and its raising (`true`) outcome leaves the transaction
aborted. -/
lemma ensure_base_abort (tx tx1 : Tx) (t : String) (r : Bool)
    (h : _create_backup_table_if_not_exists tx t = (tx1, r)) :
    tx1.base = tx.base ∧ (r = true → tx1.aborted = true) := by
  unfold _create_backup_table_if_not_exists at h
  rcases hq : tableExistsTx tx (backupName t) with ⟨txe, e⟩
  rw [hq] at h
  obtain ⟨hqb, -, -⟩ := tableExistsTx_spec tx (backupName t)
  rw [hq] at hqb
  have hqb' : txe.base = tx.base := hqb
  cases e with
  | true =>
    have h' : ((txe, false) : Tx × Bool) = (tx1, r) := h
    injection h' with h1 h2
    subst h1
    subst h2
    exact ⟨hqb', fun hc => Bool.noConfusion hc⟩
  | false =>
    have h' : (match execStmt txe (fun db =>
        match lookupTable db t with
        | none => none
        | some t0 => createTable db (backupName t) ⟨t0.cols ++ metaCols, []⟩) with
      | (tx2, true) => (tx2, true)
      | (tx2, false) =>
        match execStmt tx2 (fun db => some db) with
        | (tx3, true) => (tx3, true)
        | (tx3, false) => execStmt tx3 (fun db => some db)) = (tx1, r) := h
    rcases hc : execStmt txe (fun db =>
        match lookupTable db t with
        | none => none
        | some t0 => createTable db (backupName t) ⟨t0.cols ++ metaCols, []⟩) with ⟨txc, rc⟩
    rw [hc] at h'
    cases rc with
    | true =>
      have h'' : ((txc, true) : Tx × Bool) = (tx1, r) := h'
      injection h'' with h1 h2
      subst h1
      subst h2
      obtain ⟨ha, hb, -⟩ := execStmt_true txe txc _ hc
      exact ⟨by rw [hb, hqb'], fun _ => ha⟩
    | false =>
      obtain ⟨-, -, hcb, -, -⟩ := execStmt_false txe txc _ hc
      have h'' : (match execStmt txc (fun db => some db) with
        | (tx3, true) => (tx3, true)
        | (tx3, false) => execStmt tx3 (fun db => some db)) = (tx1, r) := h'
      rcases hd : execStmt txc (fun db => some db) with ⟨txd, rd⟩
      rw [hd] at h''
      cases rd with
      | true =>
        have h3 : ((txd, true) : Tx × Bool) = (tx1, r) := h''
        injection h3 with h1 h2
        subst h1
        subst h2
        obtain ⟨ha, hb, -⟩ := execStmt_true txc txd _ hd
        exact ⟨by rw [hb, hcb, hqb'], fun _ => ha⟩
      | false =>
        obtain ⟨-, -, hdb, -, -⟩ := execStmt_false txc txd _ hd
        have h3 : execStmt txd (fun db => some db) = (tx1, r) := h''
        cases r with
        | true =>
          obtain ⟨ha, hb, -⟩ := execStmt_true txd tx1 _ h3
          exact ⟨by rw [hb, hdb, hcb, hqb'], fun _ => ha⟩
        | false =>
          obtain ⟨-, -, hb, -, -⟩ := execStmt_false txd tx1 _ h3
          exact ⟨by rw [hb, hdb, hcb, hqb'], fun hc0 => Bool.noConfusion hc0⟩

/-- Same bookkeeping for the append-only INSERT statement. -/
lemma exec_backup_base_abort (tx tx2 : Tx) (c : ClockReading) (t : String) (r : Bool)
    (h : _execute_backup_operation tx c t = (tx2, r)) :
    tx2.base = tx.base ∧ (r = true → tx2.aborted = true) := by
  cases r with
  | true =>
    obtain ⟨ha, hb, -⟩ := execStmt_true tx tx2 _ h
    exact ⟨hb, fun _ => ha⟩
  | false =>
    obtain ⟨-, -, hb, -, -⟩ := execStmt_false tx tx2 _ h
    exact ⟨hb, fun hc => Bool.noConfusion hc⟩

/-- Across the whole `backup_all` loop the commit base never moves, and
as soon as one table has failed the transaction is left aborted. -/
lemma backupAllLoop_base_errs (c : ClockReading) (ts : List String) : ∀ tx : Tx,
    (backupAllLoop c tx ts).1.base = tx.base ∧
    ((backupAllLoop c tx ts).2 ≠ [] → (backupAllLoop c tx ts).1.aborted = true) := by
  induction ts with
  | nil =>
    intro tx
    exact ⟨rfl, fun h => absurd rfl h⟩
  | cons t ts ih =>
    intro tx
    have hstep : backupAllLoop c tx (t :: ts)
        = (match _create_backup_table_if_not_exists tx t with
          | (tx1, true) =>
            match backupAllLoop c tx1 ts with
            | (txr, errs) => (txr, (t, stmtFailMsg) :: errs)
          | (tx1, false) =>
            match _execute_backup_operation tx1 c t with
            | (tx2, true) =>
              match backupAllLoop c tx2 ts with
              | (txr, errs) => (txr, (t, stmtFailMsg) :: errs)
            | (tx2, false) => backupAllLoop c tx2 ts) := rfl
    rcases h1 : _create_backup_table_if_not_exists tx t with ⟨tx1, r1⟩
    rw [h1] at hstep
    obtain ⟨hbase1, habort1⟩ := ensure_base_abort tx tx1 t r1 h1
    cases r1 with
    | true =>
      have hab1 : tx1.aborted = true := habort1 rfl
      have hstep2 : backupAllLoop c tx (t :: ts)
          = (match backupAllLoop c tx1 ts with
            | (txr, errs) => (txr, (t, stmtFailMsg) :: errs)) := hstep
      rw [backupAllLoop_aborted c ts tx1 hab1] at hstep2
      have hstep3 : backupAllLoop c tx (t :: ts)
          = (tx1, (t, stmtFailMsg) :: ts.map (fun u => (u, stmtFailMsg))) := hstep2
      rw [hstep3]
      exact ⟨hbase1, fun _ => hab1⟩
    | false =>
      rcases h2 : _execute_backup_operation tx1 c t with ⟨tx2, r2⟩
      have hstep2 : backupAllLoop c tx (t :: ts)
          = (match _execute_backup_operation tx1 c t with
            | (tx2, true) =>
              match backupAllLoop c tx2 ts with
              | (txr, errs) => (txr, (t, stmtFailMsg) :: errs)
            | (tx2, false) => backupAllLoop c tx2 ts) := hstep
      rw [h2] at hstep2
      obtain ⟨hbase2, habort2⟩ := exec_backup_base_abort tx1 tx2 c t r2 h2
      cases r2 with
      | true =>
        have hab2 : tx2.aborted = true := habort2 rfl
        have hstep3 : backupAllLoop c tx (t :: ts)
            = (match backupAllLoop c tx2 ts with
              | (txr, errs) => (txr, (t, stmtFailMsg) :: errs)) := hstep2
        rw [backupAllLoop_aborted c ts tx2 hab2] at hstep3
        have hstep4 : backupAllLoop c tx (t :: ts)
            = (tx2, (t, stmtFailMsg) :: ts.map (fun u => (u, stmtFailMsg))) := hstep3
        rw [hstep4]
        exact ⟨by rw [hbase2, hbase1], fun _ => hab2⟩
      | false =>
        have hstep3 : backupAllLoop c tx (t :: ts) = backupAllLoop c tx2 ts := hstep2
        rw [hstep3]
        obtain ⟨ihb, ihe⟩ := ih tx2
        exact ⟨by rw [ihb, hbase2, hbase1], ihe⟩


/-- When the loop records no error, every enumerated table's backup
gains exactly the stamped snapshot of that table's rows, and every
name outside the enumerated backups is untouched. -/
lemma backupAllLoop_success (c : ClockReading) (ts : List String) : ∀ tx : Tx,
    (backupAllLoop c tx ts).2 = [] → tx.aborted = false →
    (backupAllLoop c tx ts).1.aborted = false ∧
    (∀ m, m ∉ ts.map backupName →
      lookupTable (backupAllLoop c tx ts).1.db m = lookupTable tx.db m) ∧
    (ts.Nodup → (∀ u ∈ ts, likeEndsBackup u = false) →
      ∀ u ∈ ts, bRows (backupAllLoop c tx ts).1.db u
        = bRows tx.db u ++ (srcRows tx.db u).map (stampRow c)) := by
  induction ts with
  | nil =>
    intro tx h hab
    exact ⟨hab, fun m hm => rfl, fun _ _ u hu => absurd hu (List.not_mem_nil u)⟩
  | cons t ts ih =>
    intro tx h hab
    have hstep : backupAllLoop c tx (t :: ts)
        = (match _create_backup_table_if_not_exists tx t with
          | (tx1, true) =>
            match backupAllLoop c tx1 ts with
            | (txr, errs) => (txr, (t, stmtFailMsg) :: errs)
          | (tx1, false) =>
            match _execute_backup_operation tx1 c t with
            | (tx2, true) =>
              match backupAllLoop c tx2 ts with
              | (txr, errs) => (txr, (t, stmtFailMsg) :: errs)
            | (tx2, false) => backupAllLoop c tx2 ts) := rfl
    rcases h1 : _create_backup_table_if_not_exists tx t with ⟨tx1, r1⟩
    rw [h1] at hstep
    cases r1 with
    | true =>
      exfalso
      have hstep2 : backupAllLoop c tx (t :: ts)
          = (match backupAllLoop c tx1 ts with
            | (txr, errs) => (txr, (t, stmtFailMsg) :: errs)) := hstep
      rcases hr : backupAllLoop c tx1 ts with ⟨txr, errs⟩
      rw [hr] at hstep2
      have hstep3 : backupAllLoop c tx (t :: ts) = (txr, (t, stmtFailMsg) :: errs) := hstep2
      rw [hstep3] at h
      exact List.noConfusion h
    | false =>
      rcases h2 : _execute_backup_operation tx1 c t with ⟨tx2, r2⟩
      have hstep2 : backupAllLoop c tx (t :: ts)
          = (match _execute_backup_operation tx1 c t with
            | (tx2, true) =>
              match backupAllLoop c tx2 ts with
              | (txr, errs) => (txr, (t, stmtFailMsg) :: errs)
            | (tx2, false) => backupAllLoop c tx2 ts) := hstep
      rw [h2] at hstep2
      cases r2 with
      | true =>
        exfalso
        have hstep3 : backupAllLoop c tx (t :: ts)
            = (match backupAllLoop c tx2 ts with
              | (txr, errs) => (txr, (t, stmtFailMsg) :: errs)) := hstep2
        rcases hr : backupAllLoop c tx2 ts with ⟨txr, errs⟩
        rw [hr] at hstep3
        have hstep4 : backupAllLoop c tx (t :: ts) = (txr, (t, stmtFailMsg) :: errs) := hstep3
        rw [hstep4] at h
        exact List.noConfusion h
      | false =>
        have hstep3 : backupAllLoop c tx (t :: ts) = backupAllLoop c tx2 ts := hstep2
        rw [hstep3] at h ⊢
        obtain ⟨hab2, -, hrowsStep, hframeStep⟩ := backup_step_success c t tx tx1 tx2 h1 h2
        obtain ⟨habN, hframeN, happN⟩ := ih tx2 h hab2
        refine ⟨habN, ?_, ?_⟩
        · intro m hm
          have hm1 : m ≠ backupName t := by
            intro he
            exact hm (by rw [he]; exact List.mem_cons_self _ _)
          have hm2 : m ∉ ts.map backupName := by
            intro he
            exact hm (List.mem_cons_of_mem _ he)
          rw [hframeN m hm2, hframeStep m hm1]
        · intro hnd hlk u hu
          obtain ⟨hnt, hndts⟩ := List.nodup_cons.mp hnd
          cases hu with
          | head =>
            have hmem : backupName t ∉ ts.map backupName := by
              intro he
              obtain ⟨u', hu', heq⟩ := List.mem_map.mp he
              exact hnt (backupName_inj t u' heq.symm ▸ hu')
            unfold bRows
            rw [hframeN (backupName t) hmem]
            exact hrowsStep
          | tail _ hu =>
            have hne : u ≠ t := fun he => hnt (he ▸ hu)
            have hb : bRows tx2.db u = bRows tx.db u := by
              unfold bRows
              rw [hframeStep (backupName u)
                (fun he => hne (backupName_inj u t he))]
            have hs : srcRows tx2.db u = srcRows tx.db u := by
              unfold srcRows
              rw [hframeStep u (by
                intro he
                have hl1 : likeEndsBackup u = false := hlk u (List.mem_cons_of_mem _ hu)
                have hl2 : likeEndsBackup u = true := by
                  rw [he]
                  exact likeEndsBackup_backupName t
                rw [hl1] at hl2
                exact Bool.noConfusion hl2)]
            rw [happN hndts (fun v hv => hlk v (List.mem_cons_of_mem _ hv)) u hu, hb, hs]


/-- **C5**.  `backup_all` can never exhibit the claimed per-table
error collection: its enumeration query is executed with a bind
parameter while the SQL text still contains the unescaped `%` of
`NOT LIKE` (the LIKE pattern), so the client-side parameter
interpolation raises `ValueError` on every single call, before any
table is enumerated, attempted or backed up.  Whatever the state, the
clock and the injected faults, the call returns exactly the one
`("all", …)` error pair and the committed state is untouched. -/
theorem backup_all_never_attempts (faults : List Bool) (c : ClockReading) (st : DBState) :
    backup_all faults c st = ([("all", valueErrorMsg)], st) := by
  unfold backup_all
  rw [if_neg (by decide : ¬(pyFormatOk backupAllEnumQuery = true))]

end FondAnalysis
